import Mathlib

/-!
Verification of the pallet bin-packing engine (`src/utils/binPacking.ts`).

The TypeScript engine is shallowly embedded: JS numbers become `ℚ` (the
engine only adds, subtracts, multiplies, divides and floors, so exact
rational arithmetic models the float code; the 1 cm position-scan step of
`findBestPositionInLayer` is the exact rational `1/100`), JS angle values
`Math.PI / 2` are recorded in degrees (`90 : ℚ`), and the mutable class
state (`placedPackages`, `availablePositions`) is threaded explicitly as a
`BPState` value.  Unbounded `while` loops are given explicit fuel with the
fuel chosen at the call site to dominate the loop's iteration count (each
iteration of the layer loop consumes at least one remaining package, or the
loop breaks).  JS `Array.prototype.sort` with a comparator is embedded as a
stable insertion sort by the comparator's strict order, matching the
stability guarantee of the JS specification.
-/

namespace BinPacking

attribute [local semireducible] Rat.add Rat.mul Rat.inv Rat.sub

/-- Tolerance for rounding errors (source line 4: `0.0005`, i.e. 0.05 cm). -/
def ROUNDING_TOLERANCE : ℚ := 5 / 10000

/-- Source `approxEqual` (line 7): `|a - b| <= ROUNDING_TOLERANCE`. -/
def approxEqual (a b : ℚ) : Bool :=
  decide (|a - b| ≤ ROUNDING_TOLERANCE)

/-- Source `approxLessOrEqual` (line 12): `a <= b || approxEqual a b`. -/
def approxLessOrEqual (a b : ℚ) : Bool :=
  decide (a ≤ b) || approxEqual a b

/-- Rotation classes (source `RotationType`: 'horizontal' | 'vertical' | 'all'). -/
inductive RotationType where
  | horizontal
  | vertical
  | all
deriving DecidableEq, Repr

/-- Source `Package` record; the cosmetic `name` and `color` fields never
influence the algorithm and are omitted. -/
structure Package where
  id : String
  length : ℚ
  width : ℚ
  height : ℚ
  weight : ℚ
  rotationType : RotationType
  duplicateCount : ℕ
deriving DecidableEq, Repr

/-- Source `Position`. -/
structure Position where
  x : ℚ
  y : ℚ
  z : ℚ
deriving DecidableEq, Repr

/-- Angle triple; source stores radians, embedded in degrees (π/2 ↦ 90). -/
abbrev Angle3 := ℚ × ℚ × ℚ

/-- Source `Rotation`: a concrete dimension triple plus the producing angles. -/
structure Rotation where
  length : ℚ
  width : ℚ
  height : ℚ
  rotationAngles : Angle3
deriving DecidableEq, Repr

/-- Source `PlacedPackage extends Package`: the spread `...pkg` is the `pkg`
field, holding the original (pre-rotation) dimensions and metadata. -/
structure PlacedPackage where
  pkg : Package
  x : ℚ
  y : ℚ
  z : ℚ
  actualLength : ℚ
  actualWidth : ℚ
  actualHeight : ℚ
  rotation : Angle3
deriving DecidableEq, Repr

/-- Source `PalletConfig`. -/
structure PalletConfig where
  length : ℚ
  width : ℚ
  baseHeight : ℚ
  loadHeight : ℚ
  maxWeight : ℚ
deriving DecidableEq, Repr

/-- The engine's mutable fields `placedPackages` and `availablePositions`. -/
structure BPState where
  placed : List PlacedPackage
  positions : List Position
deriving DecidableEq, Repr

/-- `initializePositions` (line 40) seeds the single anchor `(0, baseHeight, 0)`. -/
def initPosition (cfg : PalletConfig) : Position :=
  ⟨0, cfg.baseHeight, 0⟩

/-- Engine state right after the constructor / a reset. -/
def freshState (cfg : PalletConfig) : BPState :=
  ⟨[], [initPosition cfg]⟩

/-- The class `BinPackingAlgorithm`: stored config plus mutable state. -/
structure BinPackingAlgorithm where
  palletConfig : PalletConfig
  state : BPState
deriving DecidableEq, Repr

/-- The constructor (lines 35-38): store the config unconditionally and seed
the available positions.  There is no validation of any kind. -/
def mkBinPackingAlgorithm (cfg : PalletConfig) : BinPackingAlgorithm :=
  ⟨cfg, freshState cfg⟩

/-- Stable insertion step for the JS comparator sort: `lt y x` means `y`
strictly precedes `x` under the comparator (comparator value `< 0`). -/
def insertStable {α : Type} (lt : α → α → Bool) (x : α) : List α → List α
  | [] => [x]
  | y :: ys => if lt y x then y :: insertStable lt x ys else x :: y :: ys

/-- Stable sort by a strict comparator: elements comparing equal keep their
original relative order, as JS `Array.prototype.sort` guarantees. -/
def stableSort {α : Type} (lt : α → α → Bool) (l : List α) : List α :=
  l.foldr (insertStable lt) []

/-- Source `generateRotations` (lines 586-617).  Angles in degrees. -/
def generateRotations (pkg : Package) : List Rotation :=
  match pkg.rotationType with
  | .horizontal =>
      [ ⟨pkg.length, pkg.width, pkg.height, (0, 0, 0)⟩,
        ⟨pkg.width, pkg.length, pkg.height, (0, 90, 0)⟩ ]
  | .vertical =>
      [ ⟨pkg.length, pkg.width, pkg.height, (0, 0, 0)⟩ ]
  | .all =>
      [ ⟨pkg.length, pkg.width, pkg.height, (0, 0, 0)⟩,
        ⟨pkg.width, pkg.length, pkg.height, (0, 90, 0)⟩,
        ⟨pkg.length, pkg.height, pkg.width, (90, 0, 0)⟩,
        ⟨pkg.height, pkg.width, pkg.length, (0, 0, 90)⟩,
        ⟨pkg.width, pkg.height, pkg.length, (90, 90, 0)⟩,
        ⟨pkg.height, pkg.length, pkg.width, (90, 0, 90)⟩ ]

/-- Axis-aligned collision box, as built inline in `canPlaceAtPosition`. -/
structure CollBox where
  x : ℚ
  y : ℚ
  z : ℚ
  length : ℚ
  width : ℚ
  height : ℚ
deriving DecidableEq, Repr

/-- Source `checkCollision` (lines 650-659): two boxes collide unless they are
approximately separated along some axis. -/
def checkCollision (box1 box2 : CollBox) : Bool :=
  !(approxLessOrEqual (box1.x + box1.length) box2.x ||
    approxLessOrEqual (box2.x + box2.length) box1.x ||
    approxLessOrEqual (box1.y + box1.height) box2.y ||
    approxLessOrEqual (box2.y + box2.height) box1.y ||
    approxLessOrEqual (box1.z + box1.width) box2.z ||
    approxLessOrEqual (box2.z + box2.width) box1.z)

/-- Collision box of an already-placed package. -/
def placedBox (p : PlacedPackage) : CollBox :=
  ⟨p.x, p.y, p.z, p.actualLength, p.actualWidth, p.actualHeight⟩

/-- Source `canPlaceAtPosition` (lines 619-648): tolerance-aware bounds test
plus collision test against every placed package. -/
def canPlaceAtPosition (cfg : PalletConfig) (placed : List PlacedPackage)
    (rotation : Rotation) (position : Position) : Bool :=
  approxLessOrEqual (position.x + rotation.length) cfg.length &&
  approxLessOrEqual (position.z + rotation.width) cfg.width &&
  approxLessOrEqual (position.y + rotation.height) (cfg.baseHeight + cfg.loadHeight) &&
  placed.all (fun p =>
    !(checkCollision ⟨position.x, position.y, position.z,
        rotation.length, rotation.width, rotation.height⟩ (placedBox p)))

/-- Source `createPlacedPackage` (lines 661-672). -/
def createPlacedPackage (pkg : Package) (position : Position)
    (rotation : Rotation) : PlacedPackage :=
  ⟨pkg, position.x, position.y, position.z,
   rotation.length, rotation.width, rotation.height, rotation.rotationAngles⟩

/-- Source `getCurrentWeight` (lines 732-734), on a bare placement list. -/
def getCurrentWeightList (l : List PlacedPackage) : ℚ :=
  l.foldl (fun total p => total + p.pkg.weight) 0

/-- Source `getCurrentWeight` on the engine state. -/
def getCurrentWeight (st : BPState) : ℚ :=
  getCurrentWeightList st.placed

/-- Source `canAddPackageWeight` (lines 736-738). -/
def canAddPackageWeight (cfg : PalletConfig) (st : BPState) (w : ℚ) : Bool :=
  decide (getCurrentWeight st + w ≤ cfg.maxWeight)

/-- Source `calculateWastedSpace` (lines 577-584). -/
def calculateWastedSpace (cfg : PalletConfig) (position : Position)
    (rotation : Rotation) : ℚ :=
  let rightSpace := cfg.length - (position.x + rotation.length)
  let frontSpace := cfg.width - (position.z + rotation.width)
  let topSpace := (cfg.baseHeight + cfg.loadHeight) - (position.y + rotation.height)
  rightSpace + frontSpace + topSpace * (1 / 2)

/-- Source `evaluatePositionScore` (lines 563-575). -/
def evaluatePositionScore (cfg : PalletConfig) (position : Position)
    (rotation : Rotation) : ℚ :=
  position.y * 10 + (position.z * 5 + position.x * 2) +
    calculateWastedSpace cfg position rotation

/-- Source `isValidPosition` (lines 707-714). -/
def isValidPosition (cfg : PalletConfig) (position : Position) : Bool :=
  decide (position.x ≥ 0) &&
  decide (position.y ≥ cfg.baseHeight) &&
  decide (position.z ≥ 0) &&
  approxLessOrEqual position.x cfg.length &&
  approxLessOrEqual position.y (cfg.baseHeight + cfg.loadHeight) &&
  approxLessOrEqual position.z cfg.width

/-- Source `positionExists` (lines 716-722). -/
def positionExists (positions : List Position) (position : Position) : Bool :=
  positions.any (fun pos =>
    approxEqual pos.x position.x &&
    approxEqual pos.y position.y &&
    approxEqual pos.z position.z)

/-- Source `removeUsedPosition` (lines 724-730). -/
def removeUsedPosition (positions : List Position) (position : Position) :
    List Position :=
  positions.filter (fun pos =>
    !(approxEqual pos.x position.x &&
      approxEqual pos.y position.y &&
      approxEqual pos.z position.z))

/-- Comparator order of the bottom-left-back anchor sort (lines 700-704):
`a` strictly precedes `b`. -/
def positionLt (a b : Position) : Bool :=
  if !(approxEqual a.y b.y) then decide (a.y < b.y)
  else if !(approxEqual a.z b.z) then decide (a.z < b.z)
  else decide (a.x < b.x)

/-- Source `updateAvailablePositions` (lines 674-705): push the up-to-seven
corner anchors of the placed package that are valid and not yet present,
then sort all anchors bottom-left-back. -/
def updateAvailablePositions (cfg : PalletConfig) (st : BPState)
    (pp : PlacedPackage) : BPState :=
  let candidates : List Position :=
    [ ⟨pp.x + pp.actualLength, pp.y, pp.z⟩,
      ⟨pp.x, pp.y, pp.z + pp.actualWidth⟩,
      ⟨pp.x, pp.y + pp.actualHeight, pp.z⟩,
      ⟨pp.x + pp.actualLength, pp.y + pp.actualHeight, pp.z⟩,
      ⟨pp.x, pp.y + pp.actualHeight, pp.z + pp.actualWidth⟩,
      ⟨pp.x + pp.actualLength, pp.y, pp.z + pp.actualWidth⟩,
      ⟨pp.x + pp.actualLength, pp.y + pp.actualHeight, pp.z + pp.actualWidth⟩ ]
  let newPositions := candidates.filter (fun pos =>
    isValidPosition cfg pos && !(positionExists st.positions pos))
  { st with positions := stableSort positionLt (st.positions ++ newPositions) }

/-- One candidate-considering step of `placePackageOptimized`'s selection
loop (lines 541-548): keep the strictly better-scoring feasible candidate. -/
def considerPlacement (cfg : PalletConfig) (placed : List PlacedPackage)
    (rotation : Rotation) (acc : Option (ℚ × Position × Rotation))
    (position : Position) : Option (ℚ × Position × Rotation) :=
  if canPlaceAtPosition cfg placed rotation position then
    let score := evaluatePositionScore cfg position rotation
    match acc with
    | none => some (score, position, rotation)
    | some (bestScore, _, _) =>
        if score < bestScore then some (score, position, rotation) else acc
  else acc

/-- The best-(rotation, anchor) selection loop of `placePackageOptimized`
(lines 539-550): strict improvement on the score, so the first minimum in
rotation-major, anchor-minor order wins. -/
def bestPlacement (cfg : PalletConfig) (st : BPState) (pkg : Package) :
    Option (ℚ × Position × Rotation) :=
  (generateRotations pkg).foldl (fun acc rotation =>
    st.positions.foldl (considerPlacement cfg st.placed rotation) acc) none

/-- Source `placePackageOptimized` (lines 533-561): pick the feasible
(rotation, anchor) pair with the least position score (first wins ties),
place there, grow and prune the anchor set; report success. -/
def placePackageOptimized (cfg : PalletConfig) (st : BPState) (pkg : Package) :
    BPState × Bool :=
  match bestPlacement cfg st pkg with
  | some (_, bestPosition, bestRotation) =>
      let placedPackage := createPlacedPackage pkg bestPosition bestRotation
      let st1 := { st with placed := st.placed ++ [placedPackage] }
      let st2 := updateAvailablePositions cfg st1 placedPackage
      let st3 := { st2 with positions := removeUsedPosition st2.positions bestPosition }
      (st3, true)
  | none => (st, false)

/-- Type key tuple; the source builds the string
`length x width x height x weight x rotationType`, whose equality coincides
with componentwise equality of the tuple. -/
abbrev TKey := ℚ × ℚ × ℚ × ℚ × RotationType

/-- Source `PackageType` record (lines 16-22). -/
structure PackageType where
  dimLength : ℚ
  dimWidth : ℚ
  dimHeight : ℚ
  count : ℕ
  weight : ℚ
  rotationType : RotationType
  packages : List Package
deriving DecidableEq, Repr

/-- Source `getTypeKey` (lines 510-512). -/
def getTypeKey (t : PackageType) : TKey :=
  (t.dimLength, t.dimWidth, t.dimHeight, t.weight, t.rotationType)

/-- Key of a package (line 81). -/
def typeKeyOfPkg (p : Package) : TKey :=
  (p.length, p.width, p.height, p.weight, p.rotationType)

/-- Source `getPackageTypeKey` (lines 514-517): key of a placed package from
its inherited original fields. -/
def getPackageTypeKey (p : PlacedPackage) : TKey :=
  typeKeyOfPkg p.pkg

/-- One step of the `Map`-based grouping of `groupPackagesByType`: insertion
order of first occurrence is preserved, counts and member lists grow. -/
def addToGroup : List PackageType → Package → List PackageType
  | [], p => [⟨p.length, p.width, p.height, 1, p.weight, p.rotationType, [p]⟩]
  | t :: ts, p =>
      if getTypeKey t = typeKeyOfPkg p then
        { t with count := t.count + 1, packages := t.packages ++ [p] } :: ts
      else t :: addToGroup ts p

/-- Source `groupPackagesByType` (lines 77-99): group in first-occurrence
order, then stable-sort by descending count. -/
def groupPackagesByType (packages : List Package) : List PackageType :=
  stableSort (fun a b => decide (b.count < a.count)) (packages.foldl addToGroup [])

/-- Source `expandPackages` (lines 520-531). -/
def expandPackages (packages : List Package) : List Package :=
  packages.flatMap (fun pkg =>
    (List.range pkg.duplicateCount).map (fun i =>
      { pkg with id := pkg.id ++ "_" ++ Nat.repr i }))

/-- Non-negative iteration count of a JS loop `for (v = 0; v < bound; v++)`
where `bound` is a possibly-negative rational floor. -/
def floorCount (q : ℚ) : ℕ :=
  (Int.floor q).toNat

/-- Grid coordinate triples `(layer, col, row)` in source loop order:
layers outermost, then columns, then rows. -/
def gridTriples (layers cols rows : ℕ) : List (ℕ × ℕ × ℕ) :=
  (List.range layers).flatMap (fun l =>
    (List.range cols).flatMap (fun c =>
      (List.range rows).map (fun r => (l, c, r))))

/-- Shared loop body of the two uniform-grid packers.  Walks the grid cells
in order, placing the next package at each cell until `toPlace` packages are
placed or the weight cap would be breached (the source then stops placing:
`packUniformBoxes` returns, `createUniformLayer` breaks with an unchanged
guard condition, which places nothing further either way). -/
def gridGo (cfg : PalletConfig) (rotation : Rotation) (posOf : ℕ × ℕ × ℕ → Position)
    (pkgs : List Package) (toPlace : ℕ) :
    List (ℕ × ℕ × ℕ) → ℕ → ℚ → List PlacedPackage → List PlacedPackage
  | [], _, _, acc => acc.reverse
  | t :: ts, idx, w, acc =>
      if idx < toPlace then
        match pkgs.get? idx with
        | none => acc.reverse
        | some pkg =>
            if cfg.maxWeight < w + pkg.weight then acc.reverse
            else
              gridGo cfg rotation posOf pkgs toPlace ts (idx + 1) (w + pkg.weight)
                (createPlacedPackage pkg (posOf t) rotation :: acc)
      else acc.reverse

/-- Source `packUniformBoxes` (lines 361-402): the maximal uniform 3D grid of
one rotation, capped by count, capacity and weight. -/
def packUniformBoxes (cfg : PalletConfig) (packages : List Package)
    (rotation : Rotation) : List PlacedPackage :=
  let packagesPerRow := floorCount (cfg.length / rotation.length)
  let packagesPerColumn := floorCount (cfg.width / rotation.width)
  let layersCount := floorCount (cfg.loadHeight / rotation.height)
  let totalCapacity := packagesPerRow * packagesPerColumn * layersCount
  let packagesToPlace := min packages.length totalCapacity
  gridGo cfg rotation
    (fun t => ⟨(t.2.2 : ℚ) * rotation.length,
               cfg.baseHeight + (t.1 : ℚ) * rotation.height,
               (t.2.1 : ℚ) * rotation.width⟩)
    packages packagesToPlace
    (gridTriples layersCount packagesPerColumn packagesPerRow) 0 0 []

/-- Source `LayerPlan` (lines 24-28). -/
structure LayerPlan where
  packages : List PlacedPackage
  height : ℚ
  efficiency : ℚ
deriving DecidableEq, Repr

/-- Source `calculateLayerEfficiency` (lines 307-322). -/
def calculateLayerEfficiency (cfg : PalletConfig) (packages : List PlacedPackage)
    (layerHeight : ℚ) : ℚ :=
  match packages with
  | [] => 0
  | p :: ps =>
      let vol := fun (q : PlacedPackage) => q.actualLength * q.actualWidth * q.actualHeight
      let totalPackageVolume := (p :: ps).foldl (fun s q => s + vol q) 0
      let layerVolume := cfg.length * cfg.width * layerHeight
      let volumeEfficiency := totalPackageVolume / layerVolume
      let minVolume := (ps.map vol).foldl min (vol p)
      let maxPossiblePackages := Int.floor (layerVolume / minVolume)
      let countEfficiency := ((p :: ps).length : ℚ) / (maxPossiblePackages : ℚ)
      volumeEfficiency * (7 / 10) + countEfficiency * (3 / 10)

/-- Source `createUniformLayer` (lines 177-215): a single-rotation grid layer
at height `startHeight`; the weight guard starts from the engine's
`getCurrentWeight()` (which the layer strategy never updates). -/
def createUniformLayer (cfg : PalletConfig) (st : BPState) (packages : List Package)
    (rotation : Rotation) (startHeight : ℚ) : LayerPlan :=
  let packagesPerRow := floorCount (cfg.length / rotation.length)
  let packagesPerColumn := floorCount (cfg.width / rotation.width)
  let layerPackages :=
    gridGo cfg rotation
      (fun t => ⟨(t.2.2 : ℚ) * rotation.length, startHeight, (t.2.1 : ℚ) * rotation.width⟩)
      packages packages.length
      (gridTriples 1 packagesPerColumn packagesPerRow) 0 (getCurrentWeight st) []
  ⟨layerPackages, rotation.height,
   calculateLayerEfficiency cfg layerPackages rotation.height⟩

/-- Occupied footprint rectangle of `createMixedLayer`. -/
structure Space where
  x1 : ℚ
  x2 : ℚ
  z1 : ℚ
  z2 : ℚ
deriving DecidableEq, Repr

/-- Footprint conflict test of `findBestPositionInLayer` (lines 277-280),
an exact (tolerance-free) rectangle overlap test. -/
def spaceConflict (rotation : Rotation) (position : Position) (space : Space) : Bool :=
  !(decide (position.x + rotation.length ≤ space.x1) ||
    decide (position.x ≥ space.x2) ||
    decide (position.z + rotation.width ≤ space.z1) ||
    decide (position.z ≥ space.z2))

/-- Source `findBestPositionInLayer` (lines 269-289): scan the layer plane in
1 cm steps, z-major then x, and return the first position clear of the
occupied footprints that also passes `canPlaceAtPosition`. -/
def findBestPositionInLayer (cfg : PalletConfig) (placed : List PlacedPackage)
    (rotation : Rotation) (layerY : ℚ) (occupiedSpaces : List Space) :
    Option Position :=
  let zLimit := cfg.width - rotation.width
  let xLimit := cfg.length - rotation.length
  let zSteps := if zLimit < 0 then 0 else floorCount (zLimit * 100) + 1
  let xSteps := if xLimit < 0 then 0 else floorCount (xLimit * 100) + 1
  let candidates : List Position :=
    (List.range zSteps).flatMap (fun (i : ℕ) =>
      (List.range xSteps).map (fun (j : ℕ) =>
        (⟨(j : ℚ) / 100, layerY, (i : ℚ) / 100⟩ : Position)))
  candidates.find? (fun position =>
    !(occupiedSpaces.any (spaceConflict rotation position)) &&
    canPlaceAtPosition cfg placed rotation position)

/-- Source `calculatePackagePriority` (lines 291-305). -/
def calculatePackagePriority (pkg : Package) (rotation : Rotation) : ℚ :=
  let volume := rotation.length * rotation.width * rotation.height
  let density := pkg.weight / volume
  let baseArea := rotation.length * rotation.width
  density * 1000 + baseArea * 100 +
    (if rotation.length = pkg.length ∧ rotation.width = pkg.width ∧
        rotation.height = pkg.height then 50 else 0)

/-- A candidate entry of `createMixedLayer`'s `suitablePackages`. -/
structure SuitEntry where
  pkg : Package
  rot : Rotation
  priority : ℚ
deriving DecidableEq, Repr

/-- Placement fold of `createMixedLayer` (lines 241-257). -/
def mixedLayerGo (cfg : PalletConfig) (st : BPState) (startHeight : ℚ) :
    List SuitEntry → ℚ → List Space → List PlacedPackage → List PlacedPackage
  | [], _, _, acc => acc.reverse
  | e :: es, w, spaces, acc =>
      if cfg.maxWeight < w + e.pkg.weight then
        mixedLayerGo cfg st startHeight es w spaces acc
      else
        match findBestPositionInLayer cfg st.placed e.rot startHeight spaces with
        | none => mixedLayerGo cfg st startHeight es w spaces acc
        | some position =>
            mixedLayerGo cfg st startHeight es (w + e.pkg.weight)
              (spaces ++ [⟨position.x, position.x + e.rot.length,
                           position.z, position.z + e.rot.width⟩])
              (createPlacedPackage e.pkg position e.rot :: acc)

/-- Source `createMixedLayer` (lines 217-267). -/
def createMixedLayer (cfg : PalletConfig) (st : BPState)
    (remainingPackages : List (TKey × List Package)) (startHeight : ℚ)
    (availableHeight : ℚ) : LayerPlan :=
  let suitablePackages : List SuitEntry :=
    remainingPackages.flatMap (fun kv =>
      kv.2.flatMap (fun pkg =>
        (generateRotations pkg).filterMap (fun rotation =>
          if rotation.height ≤ availableHeight then
            some ⟨pkg, rotation, calculatePackagePriority pkg rotation⟩
          else none)))
  let sorted := stableSort (fun a b => decide (b.priority < a.priority)) suitablePackages
  let layerPackages := mixedLayerGo cfg st startHeight sorted (getCurrentWeight st) [] []
  let maxHeight := layerPackages.foldl (fun m p => max m p.actualHeight) 0
  ⟨layerPackages, maxHeight, calculateLayerEfficiency cfg layerPackages maxHeight⟩

/-- Source `createOptimalLayer` (lines 143-175): all uniform-layer plans over
remaining types and admissible rotations, plus the mixed plan, reduced to the
first plan of maximal efficiency (the reduce seed is the empty plan). -/
def createOptimalLayer (cfg : PalletConfig) (st : BPState)
    (remainingPackages : List (TKey × List Package)) (startHeight : ℚ) : LayerPlan :=
  let availableHeight := cfg.baseHeight + cfg.loadHeight - startHeight
  let uniformPlans : List LayerPlan :=
    remainingPackages.flatMap (fun kv =>
      match kv.2 with
      | [] => []
      | sample :: _ =>
          (generateRotations sample).filterMap (fun rotation =>
            if availableHeight < rotation.height then none
            else
              let plan := createUniformLayer cfg st kv.2 rotation startHeight
              if plan.packages.isEmpty then none else some plan))
  let mixedPlan := createMixedLayer cfg st remainingPackages startHeight availableHeight
  let bestPlans := uniformPlans ++ (if mixedPlan.packages.isEmpty then [] else [mixedPlan])
  bestPlans.foldl (fun best current =>
    if best.efficiency < current.efficiency then current else best) ⟨[], 0, 0⟩

/-- Remove the first package with the given id (`findIndex` + `splice`). -/
def removeFirstById (i : String) : List Package → List Package
  | [] => []
  | p :: ps => if p.id = i then ps else p :: removeFirstById i ps

/-- Consume one placed package from the remaining-packages map (lines 124-131). -/
def removeUsedPackage (remaining : List (TKey × List Package)) (p : PlacedPackage) :
    List (TKey × List Package) :=
  remaining.map (fun kv =>
    if kv.1 = getPackageTypeKey p then (kv.1, removeFirstById p.pkg.id kv.2) else kv)

/-- Layer loop of `layerBasedPacking` (lines 115-132), with fuel.  Each
iteration that stacks a layer removes at least one remaining package, so
`total remaining + 1` fuel is enough to reproduce the source `while` loop. -/
def layerGo (cfg : PalletConfig) (st : BPState) :
    ℕ → ℚ → List (TKey × List Package) → List (List PlacedPackage) →
    List (List PlacedPackage)
  | 0, _, _, layers => layers
  | fuel + 1, currentHeight, remaining, layers =>
      if currentHeight < cfg.baseHeight + cfg.loadHeight then
        let layer := createOptimalLayer cfg st remaining currentHeight
        if layer.packages.isEmpty then layers
        else
          layerGo cfg st fuel (currentHeight + layer.height)
            (layer.packages.foldl removeUsedPackage remaining)
            (layers ++ [layer.packages])
      else layers

/-- Source `layerBasedPacking` (lines 101-141).  The strategy resets the
engine state and never writes `placedPackages` again, so the state it leaves
behind is the fresh state. -/
def layerBasedPacking (cfg : PalletConfig) (packageTypes : List PackageType) :
    List PlacedPackage × BPState :=
  let st := freshState cfg
  let remaining := packageTypes.map (fun t => (getTypeKey t, t.packages))
  let fuel := (packageTypes.map (fun t => t.packages.length)).sum + 1
  ((layerGo cfg st fuel cfg.baseHeight remaining []).flatten, st)

/-- Source `optimizeForSingleType` (lines 340-359): best single-rotation grid
for one type by placed count.  Resets the engine state; `packUniformBoxes`
itself is state-free, so the state left behind is the fresh state. -/
def optimizeForSingleType (cfg : PalletConfig) (t : PackageType) :
    List PlacedPackage × BPState :=
  let st := freshState cfg
  match t.packages with
  | [] => ([], st)
  | sample :: _ =>
      let best := (generateRotations sample).foldl (fun best rotation =>
        let result := packUniformBoxes cfg t.packages rotation
        if best.length < result.length then result else best) []
      (best, st)

/-- Source `uniformPackingOptimization` (lines 324-338): try the top three
most common types. -/
def uniformPackingOptimization (cfg : PalletConfig) (packageTypes : List PackageType)
    (st : BPState) : List PlacedPackage × BPState :=
  (packageTypes.take 3).foldl (fun acc t =>
    let r := optimizeForSingleType cfg t
    ((if acc.1.length < r.1.length then r.1 else acc.1), r.2))
    (([] : List PlacedPackage), st)

/-- Source `updateAvailablePositionsFromPlaced` (lines 438-444). -/
def updateAvailablePositionsFromPlaced (cfg : PalletConfig) (st : BPState) : BPState :=
  st.placed.foldl (fun s p => updateAvailablePositions cfg s p)
    { st with positions := [initPosition cfg] }

/-- Greedy fill shared by `hybridPacking` and `greedyPacking`: place each
package in order, behind the weight admission guard. -/
def greedyFill (cfg : PalletConfig) (st : BPState) (packages : List Package) : BPState :=
  packages.foldl (fun s pkg =>
    if canAddPackageWeight cfg s pkg.weight then (placePackageOptimized cfg s pkg).1
    else s) st

/-- Source `hybridPacking` (lines 404-436): seed with the most common type's
best grid, then greedily fill the rest. -/
def hybridPacking (cfg : PalletConfig) (packageTypes : List PackageType) :
    List PlacedPackage × BPState :=
  let seeded :=
    match packageTypes with
    | [] => freshState cfg
    | t :: _ =>
        let r := optimizeForSingleType cfg t
        { r.2 with placed := r.1 }
  let usedIds := seeded.placed.map (fun p => p.pkg.id)
  let remainingPackages := packageTypes.flatMap (fun t =>
    t.packages.filter (fun pkg => !(usedIds.contains pkg.id)))
  let st4 := updateAvailablePositionsFromPlaced cfg seeded
  let st5 := greedyFill cfg st4 remainingPackages
  (st5.placed, st5)

/-- Source `evaluatePackingQuality` (lines 493-507).  Note the weight term
reads the engine state's `placedPackages`, not the evaluated list. -/
def evaluatePackingQuality (cfg : PalletConfig) (st : BPState)
    (packages : List PlacedPackage) : ℚ :=
  if packages.isEmpty then 0
  else
    let totalVolume := packages.foldl
      (fun s p => s + p.actualLength * p.actualWidth * p.actualHeight) 0
    let palletVolume := cfg.length * cfg.width * cfg.loadHeight
    let volumeUtilization := totalVolume / palletVolume
    let weightUtilization := getCurrentWeight st / cfg.maxWeight
    volumeUtilization * (1 / 2) + ((packages.length : ℚ) / 1000) * (3 / 10) +
      weightUtilization * (1 / 5)

/-- The four greedy sort keys (lines 451-468), as strict "precedes" tests of
the corresponding JS comparators. -/
def greedySortVariants (packages : List Package) : List (List Package) :=
  [ stableSort (fun a b => decide (b.length * b.width * b.height <
      a.length * a.width * a.height)) packages,
    stableSort (fun a b => decide (b.height < a.height)) packages,
    stableSort (fun a b => decide (b.length * b.width < a.length * a.width)) packages,
    stableSort (fun a b => decide (b.weight / (b.length * b.width * b.height) <
      a.weight / (a.length * a.width * a.height))) packages ]

/-- Source `greedyPacking` (lines 446-491): run the greedy fill for each sort
variant from a fresh state, score with the variant's own state, keep the best
(strictly better than 0 initially), and leave the last variant's state. -/
def greedyPacking (cfg : PalletConfig) (packages : List Package) :
    List PlacedPackage × BPState :=
  let step := fun (acc : List PlacedPackage × ℚ × BPState) (sorted : List Package) =>
    let sEnd := greedyFill cfg (freshState cfg) sorted
    let score := evaluatePackingQuality cfg sEnd sEnd.placed
    (if acc.2.1 < score then sEnd.placed else acc.1,
     (if acc.2.1 < score then score else acc.2.1), sEnd)
  let r := (greedySortVariants packages).foldl step ([], 0, freshState cfg)
  (r.1, r.2.2)

/-- Source `packPackages` (lines 44-75): reset, expand, group, run the four
strategies in order (each mutating the engine state), score each result with
the state current at that moment, and return the strictly best scoring
result (initial best: empty list at score -1).  Also returns the final
engine state, which the public queries read. -/
def packPackagesFull (cfg : PalletConfig) (packages : List Package) :
    List PlacedPackage × BPState :=
  let expanded := expandPackages packages
  let packageTypes := groupPackagesByType expanded
  let r1 := layerBasedPacking cfg packageTypes
  let sc1 := evaluatePackingQuality cfg r1.2 r1.1
  let r2 := hybridPacking cfg packageTypes
  let sc2 := evaluatePackingQuality cfg r2.2 r2.1
  let r3 := uniformPackingOptimization cfg packageTypes r2.2
  let sc3 := evaluatePackingQuality cfg r3.2 r3.1
  let r4 := greedyPacking cfg expanded
  let sc4 := evaluatePackingQuality cfg r4.2 r4.1
  (([(r1.1, sc1), (r2.1, sc2), (r3.1, sc3), (r4.1, sc4)].foldl
      (fun best cand => if best.2 < cand.2 then cand else best)
      (([] : List PlacedPackage), (-1 : ℚ))).1,
   r4.2)

/-- The public `packPackages` return value. -/
def packPackages (cfg : PalletConfig) (packages : List Package) :
    List PlacedPackage :=
  (packPackagesFull cfg packages).1

/-- Source `getPackingStatistics` return record (lines 741-764). -/
structure PackingStatistics where
  totalVolume : ℚ
  usedVolume : ℚ
  volumeUtilization : ℚ
  totalWeight : ℚ
  weightUtilization : ℚ
  packageCount : ℕ
deriving DecidableEq, Repr

/-- Source `getPackingStatistics` (lines 741-764). -/
def getPackingStatistics (cfg : PalletConfig) (st : BPState) : PackingStatistics :=
  let usedVolume := st.placed.foldl
    (fun total p => total + p.actualLength * p.actualWidth * p.actualHeight) 0
  let totalVolume := cfg.length * cfg.width * cfg.loadHeight
  let totalWeight := getCurrentWeight st
  ⟨totalVolume, usedVolume, usedVolume / totalVolume, totalWeight,
   totalWeight / cfg.maxWeight, st.placed.length⟩

/-! ### Specification-side measures -/

/-- Total weight of a placement list, written as the spec reads it. -/
def sumWeights (l : List PlacedPackage) : ℚ :=
  (l.map (fun p => p.pkg.weight)).sum

/-- Total actual volume of a placement list. -/
def sumVolume (l : List PlacedPackage) : ℚ :=
  (l.map (fun p => p.actualLength * p.actualWidth * p.actualHeight)).sum

/-- Expanded input count `Σ boxSpec.duplicateCount`. -/
def totalDuplicates (l : List Package) : ℕ :=
  (l.map (fun p => p.duplicateCount)).sum

/-- The quality score exactly as claim C6 words it: the weight term is taken
from the evaluated placement list itself. -/
def evaluatePackingQualityClaim (cfg : PalletConfig) (packages : List PlacedPackage) : ℚ :=
  if packages.isEmpty then 0
  else
    sumVolume packages / (cfg.length * cfg.width * cfg.loadHeight) * (1 / 2) +
      ((packages.length : ℚ) / 1000) * (3 / 10) +
      sumWeights packages / cfg.maxWeight * (1 / 5)

/-- Left fold of accumulating additions is the sum of the mapped list. -/
theorem foldl_add_map {α : Type} (f : α → ℚ) (l : List α) (a : ℚ) :
    l.foldl (fun s x => s + f x) a = a + (l.map f).sum := by
  induction l generalizing a with
  | nil => simp
  | cons x xs ih => simp [ih, add_assoc]

theorem getCurrentWeightList_eq_sumWeights (l : List PlacedPackage) :
    getCurrentWeightList l = sumWeights l := by
  simpa [getCurrentWeightList, sumWeights] using
    foldl_add_map (fun p : PlacedPackage => p.pkg.weight) l 0

/-! ### Concrete inputs for the counterexamples and scenarios -/

/-- Pallet 1 × 1 footprint, load height 2, weight cap 10. -/
def cfg1 : PalletConfig := ⟨1, 1, 0, 2, 10⟩

/-- Two unit cubes of weight 10 each (the cap admits only one). -/
def pkgA : Package := ⟨"a", 1, 1, 1, 10, .vertical, 2⟩

/-- Pallet 1.2 × 0.5 footprint, load height 0.5. -/
def cfg2 : PalletConfig := ⟨6/5, 1/2, 0, 1/2, 100⟩

/-- A single half-unit cube allowed the two-way (yaw) rotations. -/
def pkgB : Package := ⟨"b", 1/2, 1/2, 1/2, 1, .horizontal, 1⟩

/-- Scenario B pallet: 1.2 × 0.8 footprint, base 0.15, load height 1. -/
def cfg9 : PalletConfig := ⟨6/5, 4/5, 3/20, 1, 1000⟩

/-- A box whose every dimension (2, 1.5, 1.4) exceeds the pallet footprint
and load height in every rotation. -/
def pkgC : Package := ⟨"c", 2, 3/2, 7/5, 5, .all, 1⟩

/-- An invalid configuration: non-positive length, width and load height. -/
def cfgBad : PalletConfig := ⟨-1, -1, 0, -1, 5⟩

/-- Pallet for the evaluator counterexample. -/
def cfgW : PalletConfig := ⟨1, 1, 0, 1, 10⟩

/-- A one-element placement list of weight 10 for the evaluator
counterexample. -/
def placedW : List PlacedPackage :=
  [⟨⟨"w", 1, 1, 1, 10, .vertical, 1⟩, 0, 0, 0, 1, 1, 1, (0, 0, 0)⟩]

/-! ### Spec predicates for the placement invariants -/

/-- Two placed packages are separated on at least one axis within the
tolerance: one box's far face is at most the other's near face plus ε.
This is exactly the complement of `checkCollision`. -/
def separated (p q : PlacedPackage) : Prop :=
  p.x + p.actualLength ≤ q.x + ROUNDING_TOLERANCE ∨
  q.x + q.actualLength ≤ p.x + ROUNDING_TOLERANCE ∨
  p.y + p.actualHeight ≤ q.y + ROUNDING_TOLERANCE ∨
  q.y + q.actualHeight ≤ p.y + ROUNDING_TOLERANCE ∨
  p.z + p.actualWidth ≤ q.z + ROUNDING_TOLERANCE ∨
  q.z + q.actualWidth ≤ p.z + ROUNDING_TOLERANCE

instance (p q : PlacedPackage) : Decidable (separated p q) := by
  unfold separated; infer_instance

/-- A placed package lies within the pallet bounds: the near faces exactly,
the far faces within the tolerance ε. -/
def inBounds (cfg : PalletConfig) (p : PlacedPackage) : Prop :=
  0 ≤ p.x ∧ 0 ≤ p.z ∧ cfg.baseHeight ≤ p.y ∧
  p.x + p.actualLength ≤ cfg.length + ROUNDING_TOLERANCE ∧
  p.z + p.actualWidth ≤ cfg.width + ROUNDING_TOLERANCE ∧
  p.y + p.actualHeight ≤ cfg.baseHeight + cfg.loadHeight + ROUNDING_TOLERANCE

instance (cfg : PalletConfig) (p : PlacedPackage) : Decidable (inBounds cfg p) := by
  unfold inBounds; infer_instance

/-- Positive nominal dimensions of an input box. -/
def posDims (p : Package) : Prop :=
  0 < p.length ∧ 0 < p.width ∧ 0 < p.height

instance (p : Package) : Decidable (posDims p) := by
  unfold posDims; infer_instance

/-- Geometric separation of a candidate (position, rotation) from a placed
package; definitionally `separated (createPlacedPackage _ pos rot) q`. -/
def sepGeom (pos : Position) (rot : Rotation) (q : PlacedPackage) : Prop :=
  pos.x + rot.length ≤ q.x + ROUNDING_TOLERANCE ∨
  q.x + q.actualLength ≤ pos.x + ROUNDING_TOLERANCE ∨
  pos.y + rot.height ≤ q.y + ROUNDING_TOLERANCE ∨
  q.y + q.actualHeight ≤ pos.y + ROUNDING_TOLERANCE ∨
  pos.z + rot.width ≤ q.z + ROUNDING_TOLERANCE ∨
  q.z + q.actualWidth ≤ pos.z + ROUNDING_TOLERANCE

/-- Geometric separation of two same-rotation grid cells. -/
def sepGG (a b : Position) (rot : Rotation) : Prop :=
  a.x + rot.length ≤ b.x + ROUNDING_TOLERANCE ∨
  b.x + rot.length ≤ a.x + ROUNDING_TOLERANCE ∨
  a.y + rot.height ≤ b.y + ROUNDING_TOLERANCE ∨
  b.y + rot.height ≤ a.y + ROUNDING_TOLERANCE ∨
  a.z + rot.width ≤ b.z + ROUNDING_TOLERANCE ∨
  b.z + rot.width ≤ a.z + ROUNDING_TOLERANCE

/-- Anchor-set invariant: every anchor in the non-negative quadrant at or
above the pallet base. -/
def PosOK (cfg : PalletConfig) (positions : List Position) : Prop :=
  ∀ a ∈ positions, 0 ≤ a.x ∧ cfg.baseHeight ≤ a.y ∧ 0 ≤ a.z

/-- Well-formed workspace: placed packages pairwise separated and in bounds,
and every anchor at or above the pallet floor corner. -/
def WS (cfg : PalletConfig) (st : BPState) : Prop :=
  st.placed.Pairwise separated ∧ (∀ p ∈ st.placed, inBounds cfg p) ∧
  PosOK cfg st.positions

/-- What `createOptimalLayer` guarantees about the layer it returns, relative
to the layer's start height and the remaining vertical span `avail`. -/
def LayerOK (cfg : PalletConfig) (startHeight avail : ℚ) (plan : LayerPlan) : Prop :=
  plan.packages.Pairwise separated ∧ 0 ≤ plan.height ∧ plan.height ≤ avail ∧
  ∀ p ∈ plan.packages, p.y = startHeight ∧ 0 ≤ p.x ∧ 0 ≤ p.z ∧
    p.y + p.actualHeight ≤ startHeight + plan.height ∧
    p.x + p.actualLength ≤ cfg.length + ROUNDING_TOLERANCE ∧
    p.z + p.actualWidth ≤ cfg.width + ROUNDING_TOLERANCE

/-! ### Claim theorems -/

/-- Claim C1 (code bug witness): at the failing input — pallet 1×1×2 with
weight cap 10, and two unit cubes of weight 10 each — `packPackages` returns
the layer-based placement of both cubes, whose total weight 20 exceeds the
cap: `layerBasedPacking` seeds each layer's weight guard from
`getCurrentWeight()`, but never writes `placedPackages`, so every layer
starts counting from zero. -/
theorem C1_weight_cap_violated_on_code :
    cfg1.maxWeight < sumWeights (packPackages cfg1 [pkgA]) := by decide

/-- Claim C2 (code bug witness): at the failing input — a single box instance
(`duplicateCount = 1`) with the two-way rotation class on a 1.2 × 0.5 pallet —
`packPackages` returns two placements, exceeding the expanded input count:
`createMixedLayer` enumerates (package, rotation) pairs and places the same
instance once per rotation, never marking instances as used. -/
theorem C2_cardinality_violated_on_code :
    totalDuplicates [pkgB] < (packPackages cfg2 [pkgB]).length := by decide

/-- Claim C5: `generateRotations` returns exactly the prescribed orientation
set for each rotation class — one orientation for `vertical`
(FixedOrientation), the yaw swap pair for `horizontal` (TwoWay), and the six
tagged permutations for `all` (SixWay). -/
theorem C5_generateRotations_exact (i : String) (L W H wt : ℚ) (dc : ℕ) :
    generateRotations ⟨i, L, W, H, wt, .vertical, dc⟩ =
      [⟨L, W, H, (0, 0, 0)⟩] ∧
    generateRotations ⟨i, L, W, H, wt, .horizontal, dc⟩ =
      [⟨L, W, H, (0, 0, 0)⟩, ⟨W, L, H, (0, 90, 0)⟩] ∧
    generateRotations ⟨i, L, W, H, wt, .all, dc⟩ =
      [⟨L, W, H, (0, 0, 0)⟩, ⟨W, L, H, (0, 90, 0)⟩, ⟨L, H, W, (90, 0, 0)⟩,
       ⟨H, W, L, (0, 0, 90)⟩, ⟨W, H, L, (90, 90, 0)⟩, ⟨H, L, W, (90, 0, 90)⟩] :=
  ⟨rfl, rfl, rfl⟩

/-- Claim C9: for a box whose dimensions (2 × 1.5 × 1.4) exceed the pallet
footprint (1.2 × 0.8) and load height (1.0) in every one of its six allowed
rotations, `packPackages` — a total function with no error channel — returns
the empty placement list. -/
theorem C9_infeasible_input_returns_empty :
    packPackages cfg9 [pkgC] = [] := by decide

/-- Claim C10: if `placePackageOptimized` finds no feasible
(rotation, anchor) pair it reports failure and returns the workspace exactly
unchanged — both the placed list and the available-position set. -/
theorem C10_place_failure_leaves_workspace_unchanged (cfg : PalletConfig)
    (st : BPState) (pkg : Package)
    (h : (placePackageOptimized cfg st pkg).2 = false) :
    (placePackageOptimized cfg st pkg).1 = st := by
  unfold placePackageOptimized at h ⊢
  cases hb : bestPlacement cfg st pkg with
  | none => simp [hb]
  | some v => rw [hb] at h; simp at h

/-- Witness for C10 at a concrete input: the oversized box `pkgC` on the
fresh Scenario-B workspace admits no placement, and the workspace is
returned unchanged. -/
theorem C10_place_failure_witness :
    (placePackageOptimized cfg9 (freshState cfg9) pkgC).2 = false ∧
      (placePackageOptimized cfg9 (freshState cfg9) pkgC).1 = freshState cfg9 :=
  ⟨by decide,
   C10_place_failure_leaves_workspace_unchanged cfg9 (freshState cfg9) pkgC (by decide)⟩

/-- Claim C6 (counterexample): the evaluator's weight term reads the engine
state's placed list, not the evaluated placement list `P`; with an empty
engine state and a non-empty `P` of weight 10 against cap 10, the code's
score differs from the claimed formula by the 0.2 weight-utilization term. -/
theorem C6_formula_counterexample :
    evaluatePackingQuality cfgW (freshState cfgW) placedW ≠
      evaluatePackingQualityClaim cfgW placedW := by decide

/-- Claim C6 (amended): the score of a non-empty placement list `P` is
`0.5 × (Σ actualVolume P)/(length×width×loadHeight) + 0.3 × |P|/1000 +
0.2 × currentWeight(engine state)/maxWeight` — the weight term uses the
engine's internal placed list, not `P`; an empty `P` scores 0. -/
theorem C6_amended_score_formula (cfg : PalletConfig) (st : BPState)
    (packages : List PlacedPackage) :
    evaluatePackingQuality cfg st packages =
      if packages.isEmpty then 0
      else
        sumVolume packages / (cfg.length * cfg.width * cfg.loadHeight) * (1 / 2) +
          ((packages.length : ℚ) / 1000) * (3 / 10) +
          getCurrentWeight st / cfg.maxWeight * (1 / 5) := by
  unfold evaluatePackingQuality
  cases packages with
  | nil => rfl
  | cons p ps =>
      simp only [List.isEmpty_cons]
      rw [foldl_add_map (fun q : PlacedPackage =>
        q.actualLength * q.actualWidth * q.actualHeight) (p :: ps) 0]
      simp [sumVolume]

/-- Claim C7 (counterexample): after `packPackages` at the C1 failing input,
`getCurrentWeight()` reads the state left by the last strategy run (weight
10), not the returned best placement list (weight 20). -/
theorem C7_queries_differ_from_result :
    getCurrentWeight (packPackagesFull cfg1 [pkgA]).2 ≠
      sumWeights (packPackagesFull cfg1 [pkgA]).1 := by decide

/-- Claim C7 (amended): the public queries are derived purely from the
engine's internal placed list (the state left behind by the last strategy
run, which need not equal the returned best result) and the configuration:
`getCurrentWeight` is its summed weight and `getPackingStatistics` is the
stated record over that list and the `PalletConfig`. -/
theorem C7_amended_queries_from_internal_state (cfg : PalletConfig)
    (packages : List Package) :
    getCurrentWeight (packPackagesFull cfg packages).2 =
        sumWeights (packPackagesFull cfg packages).2.placed ∧
      getPackingStatistics cfg (packPackagesFull cfg packages).2 =
        ⟨cfg.length * cfg.width * cfg.loadHeight,
         sumVolume (packPackagesFull cfg packages).2.placed,
         sumVolume (packPackagesFull cfg packages).2.placed /
           (cfg.length * cfg.width * cfg.loadHeight),
         sumWeights (packPackagesFull cfg packages).2.placed,
         sumWeights (packPackagesFull cfg packages).2.placed / cfg.maxWeight,
         (packPackagesFull cfg packages).2.placed.length⟩ := by
  constructor
  · exact getCurrentWeightList_eq_sumWeights _
  · unfold getPackingStatistics
    rw [foldl_add_map (fun q : PlacedPackage =>
      q.actualLength * q.actualWidth * q.actualHeight) _ 0]
    simp [sumVolume, getCurrentWeight, getCurrentWeightList_eq_sumWeights]

/-- Claim C8 (counterexample): the constructor accepts the invalid
configuration with negative length, width and load height — it stores it
unchanged and seeds the anchor set, and `packPackages` then runs to
completion without any error, returning the empty list. -/
theorem C8_invalid_config_accepted :
    mkBinPackingAlgorithm cfgBad = ⟨cfgBad, ⟨[], [⟨0, 0, 0⟩]⟩⟩ ∧
      packPackages cfgBad [pkgA] = [] := ⟨rfl, by decide⟩

/-- Claim C8 (amended): construction never fails — every configuration,
valid or not, is stored as-is with the seeded anchor set, and the engine
runs normally on it. -/
theorem C8_amended_no_validation (cfg : PalletConfig) :
    mkBinPackingAlgorithm cfg = ⟨cfg, freshState cfg⟩ ∧
      packPackages cfg [] = [] := by
  refine ⟨rfl, ?_⟩
  unfold packPackages packPackagesFull
  simp [expandPackages, groupPackagesByType, stableSort, layerBasedPacking, layerGo,
        createOptimalLayer, createMixedLayer, mixedLayerGo, calculateLayerEfficiency,
        hybridPacking, uniformPackingOptimization, greedyPacking, greedySortVariants,
        greedyFill, evaluatePackingQuality, updateAvailablePositionsFromPlaced,
        freshState, getCurrentWeight, getCurrentWeightList, insertStable]

/-! ### Bridging lemmas between the Boolean code predicates and the spec -/

theorem tol_nonneg : (0 : ℚ) ≤ ROUNDING_TOLERANCE := by norm_num [ROUNDING_TOLERANCE]

theorem approxLessOrEqual_iff (a b : ℚ) :
    approxLessOrEqual a b = true ↔ a ≤ b + ROUNDING_TOLERANCE := by
  simp only [approxLessOrEqual, approxEqual, Bool.or_eq_true, decide_eq_true_eq, abs_le]
  constructor
  · rintro (h | ⟨h1, h2⟩)
    · linarith [tol_nonneg]
    · linarith
  · intro h
    by_cases hab : a ≤ b
    · exact Or.inl hab
    · exact Or.inr ⟨by linarith [tol_nonneg], by linarith⟩

theorem separated_symm {p q : PlacedPackage} (h : separated p q) : separated q p := by
  unfold separated at h ⊢; tauto

theorem sepGeom_iff_separated (pk : Package) (pos : Position) (rot : Rotation)
    (q : PlacedPackage) :
    separated (createPlacedPackage pk pos rot) q ↔ sepGeom pos rot q := Iff.rfl

theorem sepGG_create {a b : Position} {rot : Rotation} (h : sepGG a b rot)
    (pk pk' : Package) :
    separated (createPlacedPackage pk a rot) (createPlacedPackage pk' b rot) := h

theorem sepGG_symm {a b : Position} {rot : Rotation} (h : sepGG a b rot) :
    sepGG b a rot := by
  unfold sepGG at h ⊢; tauto

theorem sepGeom_create_of_sepGG {a b : Position} {rot : Rotation}
    (h : sepGG a b rot) (pk : Package) :
    sepGeom a rot (createPlacedPackage pk b rot) := h

/-- Decomposition of a successful `canPlaceAtPosition`: tolerance-aware far
bounds plus geometric separation from every placed package. -/
theorem canPlaceAtPosition_spec {cfg : PalletConfig} {placed : List PlacedPackage}
    {rot : Rotation} {pos : Position}
    (h : canPlaceAtPosition cfg placed rot pos = true) :
    pos.x + rot.length ≤ cfg.length + ROUNDING_TOLERANCE ∧
    pos.z + rot.width ≤ cfg.width + ROUNDING_TOLERANCE ∧
    pos.y + rot.height ≤ cfg.baseHeight + cfg.loadHeight + ROUNDING_TOLERANCE ∧
    ∀ q ∈ placed, sepGeom pos rot q := by
  simp only [canPlaceAtPosition, Bool.and_eq_true, List.all_eq_true,
    approxLessOrEqual_iff] at h
  obtain ⟨⟨⟨h1, h2⟩, h3⟩, h4⟩ := h
  refine ⟨h1, h2, h3, fun q hq => ?_⟩
  have hc := h4 q hq
  simp only [checkCollision, placedBox, Bool.not_not, Bool.or_eq_true,
    approxLessOrEqual_iff] at hc
  unfold sepGeom
  tauto

/-- Membership through the stable-insertion step. -/
theorem mem_insertStable {α : Type} (lt : α → α → Bool) (x a : α) :
    ∀ l : List α, a ∈ insertStable lt x l ↔ a = x ∨ a ∈ l := by
  intro l
  induction l with
  | nil => simp [insertStable]
  | cons y ys ih =>
      by_cases h : lt y x = true
      · simp only [insertStable, if_pos h, List.mem_cons, ih]
        tauto
      · simp only [insertStable, if_neg h, List.mem_cons]

/-- Membership through the stable sort. -/
theorem mem_stableSort {α : Type} (lt : α → α → Bool) (a : α) :
    ∀ l : List α, a ∈ stableSort lt l ↔ a ∈ l := by
  intro l
  induction l with
  | nil => simp [stableSort]
  | cons y ys ih =>
      simp only [stableSort, List.foldr] at ih ⊢
      rw [mem_insertStable, ih, List.mem_cons]

/-- Left-fold invariant principle. -/
theorem foldl_invariant {α β : Type} {P : β → Prop} (f : β → α → β) :
    ∀ (l : List α) (b : β), P b → (∀ b' a, a ∈ l → P b' → P (f b' a)) →
      P (l.foldl f b) := by
  intro l
  induction l with
  | nil => intro b hb _; exact hb
  | cons a l ih =>
      intro b hb hstep
      exact ih (f b a) (hstep b a (List.mem_cons_self a l) hb)
        (fun b' x hx => hstep b' x (List.mem_cons_of_mem a hx))

/-- The running maximum dominates the seed and every element. -/
theorem foldl_max_spec (l : List PlacedPackage) (init : ℚ) :
    init ≤ l.foldl (fun m p => max m p.actualHeight) init ∧
      ∀ p ∈ l, p.actualHeight ≤ l.foldl (fun m p => max m p.actualHeight) init := by
  induction l generalizing init with
  | nil => simp
  | cons q l ih =>
      obtain ⟨h1, h2⟩ := ih (max init q.actualHeight)
      refine ⟨le_trans (le_max_left _ _) h1, fun p hp => ?_⟩
      rcases List.mem_cons.mp hp with rfl | hp
      · exact le_trans (le_max_right _ _) h1
      · exact h2 p hp

/-- The running maximum is bounded by any bound of the seed and elements. -/
theorem foldl_max_le (l : List PlacedPackage) (init bound : ℚ)
    (h0 : init ≤ bound) (h : ∀ p ∈ l, p.actualHeight ≤ bound) :
    l.foldl (fun m p => max m p.actualHeight) init ≤ bound := by
  induction l generalizing init with
  | nil => exact h0
  | cons q l ih =>
      exact ih (max init q.actualHeight)
        (max_le h0 (h q (List.mem_cons_self q l)))
        (fun p hp => h p (List.mem_cons_of_mem q hp))

theorem mem_removeFirstById {i : String} {p : Package} :
    ∀ {l : List Package}, p ∈ removeFirstById i l → p ∈ l := by
  intro l
  induction l with
  | nil => simp [removeFirstById]
  | cons q l ih =>
      by_cases h : q.id = i
      · simp only [removeFirstById, if_pos h]
        exact fun hp => List.mem_cons_of_mem q hp
      · simp only [removeFirstById, if_neg h, List.mem_cons]
        rintro (rfl | hp)
        · exact Or.inl rfl
        · exact Or.inr (ih hp)

/-- Every expanded instance keeps its box type's dimensions. -/
theorem mem_expandPackages_dims {packages : List Package} {p : Package}
    (hp : p ∈ expandPackages packages) :
    ∃ q ∈ packages, p.length = q.length ∧ p.width = q.width ∧
      p.height = q.height ∧ p.weight = q.weight ∧
      p.rotationType = q.rotationType := by
  simp only [expandPackages, List.mem_flatMap, List.mem_map, List.mem_range] at hp
  obtain ⟨q, hq, i, _, rfl⟩ := hp
  exact ⟨q, hq, rfl, rfl, rfl, rfl, rfl⟩

theorem posDims_expand {packages : List Package}
    (h : ∀ p ∈ packages, posDims p) :
    ∀ p ∈ expandPackages packages, posDims p := by
  intro p hp
  obtain ⟨q, hq, h1, h2, h3, _, _⟩ := mem_expandPackages_dims hp
  obtain ⟨a, b, c⟩ := h q hq
  exact ⟨h1 ▸ a, h2 ▸ b, h3 ▸ c⟩

/-- Packages collected by one grouping step come from the accumulator or are
the inserted package. -/
theorem mem_addToGroup {a : Package} {t : PackageType} {p : Package} :
    ∀ {acc : List PackageType}, t ∈ addToGroup acc a → p ∈ t.packages →
      (∃ t' ∈ acc, p ∈ t'.packages) ∨ p = a := by
  intro acc
  induction acc with
  | nil =>
      intro ht hp
      simp only [addToGroup, List.mem_singleton] at ht
      subst ht
      simp only [List.mem_singleton] at hp
      exact Or.inr hp
  | cons t0 acc ih =>
      intro ht hp
      by_cases hk : getTypeKey t0 = typeKeyOfPkg a
      · simp only [addToGroup, if_pos hk, List.mem_cons] at ht
        rcases ht with rfl | ht
        · simp only [List.mem_append, List.mem_singleton] at hp
          rcases hp with hp | rfl
          · exact Or.inl ⟨t0, List.mem_cons_self t0 acc, hp⟩
          · exact Or.inr rfl
        · exact Or.inl ⟨t, List.mem_cons_of_mem t0 ht, hp⟩
      · simp only [addToGroup, if_neg hk, List.mem_cons] at ht
        rcases ht with rfl | ht
        · exact Or.inl ⟨t, List.mem_cons_self t acc, hp⟩
        · rcases ih ht hp with ⟨t', ht', hp'⟩ | h
          · exact Or.inl ⟨t', List.mem_cons_of_mem t0 ht', hp'⟩
          · exact Or.inr h

/-- Every package of every group came from the grouped list. -/
theorem mem_groupPackagesByType {packages : List Package} {t : PackageType}
    (ht : t ∈ groupPackagesByType packages) :
    ∀ p ∈ t.packages, p ∈ packages := by
  intro p hp
  rw [groupPackagesByType, mem_stableSort] at ht
  have key : ∀ (l : List Package) (acc : List PackageType),
      (∀ t' ∈ acc, ∀ q ∈ t'.packages, q ∈ packages) →
      (∀ a ∈ l, a ∈ packages) →
      ∀ t' ∈ l.foldl addToGroup acc, ∀ q ∈ t'.packages, q ∈ packages := by
    intro l
    induction l with
    | nil => intro acc hacc _; exact hacc
    | cons a l ih =>
        intro acc hacc hl
        refine ih (addToGroup acc a) ?_ (fun x hx => hl x (List.mem_cons_of_mem a hx))
        intro t' ht' q hq
        rcases mem_addToGroup ht' hq with ⟨t'', ht'', hq'⟩ | rfl
        · exact hacc t'' ht'' q hq'
        · exact hl _ (List.mem_cons_self _ _)
  exact key packages [] (by simp) (fun a ha => ha) t ht p hp

/-- Rotations of a positive-dimension box have positive dimensions. -/
theorem generateRotations_pos {p : Package} {rot : Rotation} (hp : posDims p)
    (h : rot ∈ generateRotations p) :
    0 < rot.length ∧ 0 < rot.width ∧ 0 < rot.height := by
  obtain ⟨h1, h2, h3⟩ := hp
  unfold generateRotations at h
  rcases hr : p.rotationType with _ | _ | _ <;> rw [hr] at h <;>
    simp only [List.mem_cons, List.mem_singleton, List.not_mem_nil, or_false] at h <;>
    rcases h with rfl | rfl | rfl | rfl | rfl | rfl <;> exact ⟨by assumption, by assumption, by assumption⟩

/-! ### Uniform-grid lemmas -/

theorem mem_gridTriples {lc pc pr : ℕ} {t : ℕ × ℕ × ℕ} :
    t ∈ gridTriples lc pc pr ↔ t.1 < lc ∧ t.2.1 < pc ∧ t.2.2 < pr := by
  obtain ⟨l, c, r⟩ := t
  simp only [gridTriples, List.mem_flatMap, List.mem_map, List.mem_range]
  constructor
  · rintro ⟨l', hl', c', hc', r', hr', h⟩
    obtain ⟨rfl, rfl, rfl⟩ : l' = l ∧ c' = c ∧ r' = r := by
      injection h with h1 h2; injection h2 with h2 h3; exact ⟨h1, h2, h3⟩
    exact ⟨hl', hc', hr'⟩
  · rintro ⟨h1, h2, h3⟩
    exact ⟨l, h1, c, h2, r, h3, rfl⟩

/-- A grid cell index below the per-axis capacity keeps the cell's far face
inside the axis span. -/
theorem grid_cell_le {q d : ℚ} (hd : 0 < d) {r : ℕ} (hr : r < floorCount (q / d)) :
    (r : ℚ) * d + d ≤ q := by
  have h1 : ((r : ℤ) : ℚ) + 1 ≤ q / d := by
    have hz : (r : ℤ) + 1 ≤ ⌊q / d⌋ := Int.lt_toNat.mp hr
    have := Int.le_floor.mp hz
    push_cast at this ⊢
    linarith
  calc (r : ℚ) * d + d = (((r : ℤ) : ℚ) + 1) * d := by push_cast; ring
    _ ≤ (q / d) * d := mul_le_mul_of_nonneg_right h1 hd.le
    _ = q := div_mul_cancel₀ q hd.ne'

/-- Consecutive grid cells on one axis touch or are disjoint exactly. -/
theorem grid_cell_mono {d : ℚ} (hd : 0 < d) {r r' : ℕ} (h : r < r') :
    (r : ℚ) * d + d ≤ (r' : ℚ) * d := by
  have h1 : (r : ℚ) + 1 ≤ (r' : ℚ) := by exact_mod_cast Nat.succ_le_of_lt h
  calc (r : ℚ) * d + d = ((r : ℚ) + 1) * d := by ring
    _ ≤ (r' : ℚ) * d := mul_le_mul_of_nonneg_right h1 hd.le

/-- Distinct cells of one uniform grid are geometrically separated, for any
per-layer height function `yOf` that strictly stacks the layers in range. -/
theorem gridTriples_pairwise_sepGG {rot : Rotation} (hl : 0 < rot.length)
    (hw : 0 < rot.width) (yOf : ℕ → ℚ) (lc pc pr : ℕ)
    (hy : ∀ l l' : ℕ, l < l' → l' < lc → yOf l + rot.height ≤ yOf l') :
    (gridTriples lc pc pr).Pairwise (fun t t' =>
      sepGG ⟨(t.2.2 : ℚ) * rot.length, yOf t.1, (t.2.1 : ℚ) * rot.width⟩
            ⟨(t'.2.2 : ℚ) * rot.length, yOf t'.1, (t'.2.1 : ℚ) * rot.width⟩ rot) := by
  unfold gridTriples
  rw [List.pairwise_flatMap]
  constructor
  · intro l _
    rw [List.pairwise_flatMap]
    constructor
    · intro c _
      rw [List.pairwise_map]
      have := List.pairwise_lt_range pr
      refine this.imp ?_
      intro r r' hrr
      exact Or.inl (le_trans (grid_cell_mono hl hrr) (le_add_of_nonneg_right tol_nonneg))
    · have := List.pairwise_lt_range pc
      refine this.imp ?_
      intro c c' hcc x hx y hy'
      simp only [List.mem_map, List.mem_range] at hx hy'
      obtain ⟨r, _, rfl⟩ := hx
      obtain ⟨r', _, rfl⟩ := hy'
      refine Or.inr (Or.inr (Or.inr (Or.inr (Or.inl ?_))))
      exact le_trans (grid_cell_mono hw hcc) (le_add_of_nonneg_right tol_nonneg)
  · have hrange : (List.range lc).Pairwise (fun l l' => l < l' ∧ l' < lc) := by
      refine (List.pairwise_lt_range lc).imp_of_mem ?_
      intro l l' _ hmem h
      exact ⟨h, List.mem_range.mp hmem⟩
    refine hrange.imp ?_
    rintro l l' ⟨hll, hl'lt⟩ x hx y hy'
    simp only [List.mem_flatMap, List.mem_map, List.mem_range] at hx hy'
    obtain ⟨c, _, r, _, rfl⟩ := hx
    obtain ⟨c', _, r', _, rfl⟩ := hy'
    refine Or.inr (Or.inr (Or.inl ?_))
    exact le_trans (hy l l' hll hl'lt) (le_add_of_nonneg_right tol_nonneg)

/-- Master invariant of the shared grid-placement loop: if the accumulated
placements are pairwise separated and satisfy `Post`, every remaining cell
yields a `Post` placement separated from the accumulated ones, and the
remaining cells are pairwise separated, then the loop's output is pairwise
separated and all-`Post`. -/
theorem gridGo_spec (cfg : PalletConfig) (rot : Rotation)
    (posOf : ℕ × ℕ × ℕ → Position) (pkgs : List Package) (toPlace : ℕ)
    (Post : PlacedPackage → Prop) :
    ∀ (triples : List (ℕ × ℕ × ℕ)) (idx : ℕ) (w : ℚ) (acc : List PlacedPackage),
      acc.Pairwise separated →
      (∀ p ∈ acc, Post p) →
      (∀ t ∈ triples, ∀ pk : Package, Post (createPlacedPackage pk (posOf t) rot)) →
      (∀ t ∈ triples, ∀ p ∈ acc, sepGeom (posOf t) rot p) →
      triples.Pairwise (fun t t' => sepGG (posOf t) (posOf t') rot) →
      (gridGo cfg rot posOf pkgs toPlace triples idx w acc).Pairwise separated ∧
        ∀ p ∈ gridGo cfg rot posOf pkgs toPlace triples idx w acc, Post p := by
  intro triples
  induction triples with
  | nil =>
      intro idx w acc hA hB _ _ _
      unfold gridGo
      refine ⟨List.pairwise_reverse.mpr (hA.imp fun h => separated_symm h), ?_⟩
      intro p hp
      exact hB p (List.mem_reverse.mp hp)
  | cons t ts ih =>
      intro idx w acc hA hB hC hD hE
      have base : (acc.reverse).Pairwise separated ∧ ∀ p ∈ acc.reverse, Post p := by
        refine ⟨List.pairwise_reverse.mpr (hA.imp fun h => separated_symm h), ?_⟩
        intro p hp
        exact hB p (List.mem_reverse.mp hp)
      unfold gridGo
      by_cases hidx : idx < toPlace
      · rw [if_pos hidx]
        cases hget : pkgs.get? idx with
        | none => exact base
        | some pkg =>
            dsimp only
            by_cases hwt : cfg.maxWeight < w + pkg.weight
            · rw [if_pos hwt]
              exact base
            · rw [if_neg hwt]
              apply ih
              · refine List.Pairwise.cons ?_ hA
                intro p hp
                exact hD t (List.mem_cons_self t ts) p hp
              · intro p hp
                rcases List.mem_cons.mp hp with rfl | hp
                · exact hC t (List.mem_cons_self t ts) pkg
                · exact hB p hp
              · intro t' ht' pk
                exact hC t' (List.mem_cons_of_mem t ht') pk
              · intro t' ht' p hp
                rcases List.mem_cons.mp hp with rfl | hp
                · have := (List.pairwise_cons.mp hE).1 t' ht'
                  exact sepGeom_create_of_sepGG (sepGG_symm this) pkg
                · exact hD t' (List.mem_cons_of_mem t ht') p hp
              · exact (List.pairwise_cons.mp hE).2
      · rw [if_neg hidx]
        exact base

/-- The 3D uniform grid packer returns pairwise-separated, in-bounds
placements whenever the rotation's dimensions are positive. -/
theorem packUniformBoxes_spec (cfg : PalletConfig) (pkgs : List Package)
    (rot : Rotation) (hl : 0 < rot.length) (hw : 0 < rot.width)
    (hh : 0 < rot.height) :
    (packUniformBoxes cfg pkgs rot).Pairwise separated ∧
      ∀ p ∈ packUniformBoxes cfg pkgs rot, inBounds cfg p := by
  unfold packUniformBoxes
  apply gridGo_spec cfg rot _ pkgs _ (inBounds cfg) _ 0 0 []
  · exact List.Pairwise.nil
  · intro p hp; cases hp
  · intro t ht pk
    rw [mem_gridTriples] at ht
    obtain ⟨h1, h2, h3⟩ := ht
    refine ⟨?_, ?_, ?_, ?_, ?_, ?_⟩
    · exact mul_nonneg (Nat.cast_nonneg _) hl.le
    · exact mul_nonneg (Nat.cast_nonneg _) hw.le
    · exact le_add_of_nonneg_right (mul_nonneg (Nat.cast_nonneg _) hh.le)
    · exact le_trans (grid_cell_le hl h3) (le_add_of_nonneg_right tol_nonneg)
    · exact le_trans (grid_cell_le hw h2) (le_add_of_nonneg_right tol_nonneg)
    · have := grid_cell_le hh h1
      have ht := tol_nonneg
      show cfg.baseHeight + (t.1 : ℚ) * rot.height + rot.height ≤
        cfg.baseHeight + cfg.loadHeight + ROUNDING_TOLERANCE
      linarith
  · intro t ht p hp; cases hp
  · exact gridTriples_pairwise_sepGG hl hw
      (fun l => cfg.baseHeight + (l : ℚ) * rot.height) _ _ _
      (fun l l' hll _ => by
        dsimp only
        have := grid_cell_mono hh hll
        linarith)

/-- The single-rotation uniform layer: pairwise separated; every package sits
at the layer's start height with the rotation's height and an exactly
in-footprint base rectangle. -/
theorem createUniformLayer_spec (cfg : PalletConfig) (st : BPState)
    (pkgs : List Package) (rot : Rotation) (startHeight : ℚ)
    (hl : 0 < rot.length) (hw : 0 < rot.width) :
    (createUniformLayer cfg st pkgs rot startHeight).packages.Pairwise separated ∧
      ∀ p ∈ (createUniformLayer cfg st pkgs rot startHeight).packages,
        p.y = startHeight ∧ p.actualHeight = rot.height ∧ 0 ≤ p.x ∧ 0 ≤ p.z ∧
          p.x + p.actualLength ≤ cfg.length ∧ p.z + p.actualWidth ≤ cfg.width := by
  unfold createUniformLayer
  apply gridGo_spec cfg rot _ pkgs _ _ _ 0 (getCurrentWeight st) []
  · exact List.Pairwise.nil
  · intro p hp; cases hp
  · intro t ht pk
    rw [mem_gridTriples] at ht
    obtain ⟨_, h2, h3⟩ := ht
    exact ⟨rfl, rfl, mul_nonneg (Nat.cast_nonneg _) hl.le,
      mul_nonneg (Nat.cast_nonneg _) hw.le,
      grid_cell_le hl h3, grid_cell_le hw h2⟩
  · intro t ht p hp; cases hp
  · exact gridTriples_pairwise_sepGG hl hw (fun _ => startHeight) _ _ _
      (fun l l' _ hl' => by omega)

/-- Occupied footprint of a placed package, as recorded by
`createMixedLayer`. -/
theorem spaceConflict_false {rot : Rotation} {pos : Position} {s : Space}
    (h : spaceConflict rot pos s = false) :
    pos.x + rot.length ≤ s.x1 ∨ s.x2 ≤ pos.x ∨
      pos.z + rot.width ≤ s.z1 ∨ s.z2 ≤ pos.z := by
  simp only [spaceConflict, Bool.not_eq_false', Bool.or_eq_true,
    decide_eq_true_eq, ge_iff_le] at h
  tauto

/-- What a successful in-layer position search guarantees: the position is at
the layer height in the non-negative quadrant, clears every occupied
footprint, and passes the feasibility check. -/
theorem findBestPositionInLayer_spec {cfg : PalletConfig}
    {placed : List PlacedPackage} {rot : Rotation} {layerY : ℚ}
    {spaces : List Space} {pos : Position}
    (h : findBestPositionInLayer cfg placed rot layerY spaces = some pos) :
    pos.y = layerY ∧ 0 ≤ pos.x ∧ 0 ≤ pos.z ∧
      (∀ s ∈ spaces, spaceConflict rot pos s = false) ∧
      canPlaceAtPosition cfg placed rot pos = true := by
  unfold findBestPositionInLayer at h
  have hpred := List.find?_some h
  have hmem := List.mem_of_find?_eq_some h
  obtain ⟨i, hi, hmem2⟩ := List.mem_flatMap.mp hmem
  obtain ⟨j, hj, rfl⟩ := List.mem_map.mp hmem2
  simp only [Bool.and_eq_true, Bool.not_eq_true', List.any_eq_false] at hpred
  refine ⟨rfl, ?_, ?_,
    fun s hs => Bool.eq_false_iff.mpr (hpred.1 s hs), hpred.2⟩
  · show (0 : ℚ) ≤ (j : ℚ) / 100
    exact div_nonneg (Nat.cast_nonneg j) (by norm_num)
  · show (0 : ℚ) ≤ (i : ℚ) / 100
    exact div_nonneg (Nat.cast_nonneg i) (by norm_num)

/-- Invariant of the mixed-layer placement fold: all placements stay in the
layer's height band and footprint, pairwise separated, with every accumulated
footprint recorded in the occupied-space list. -/
theorem mixedLayerGo_spec (cfg : PalletConfig) (st : BPState)
    (startHeight avail : ℚ) :
    ∀ (entries : List SuitEntry) (w : ℚ) (spaces : List Space)
      (acc : List PlacedPackage),
      (∀ e ∈ entries, e.rot.height ≤ avail) →
      acc.Pairwise separated →
      (∀ p ∈ acc, p.y = startHeight ∧ 0 ≤ p.x ∧ 0 ≤ p.z ∧
        p.actualHeight ≤ avail ∧
        p.x + p.actualLength ≤ cfg.length + ROUNDING_TOLERANCE ∧
        p.z + p.actualWidth ≤ cfg.width + ROUNDING_TOLERANCE) →
      (∀ p ∈ acc,
        (⟨p.x, p.x + p.actualLength, p.z, p.z + p.actualWidth⟩ : Space) ∈ spaces) →
      (mixedLayerGo cfg st startHeight entries w spaces acc).Pairwise separated ∧
        ∀ p ∈ mixedLayerGo cfg st startHeight entries w spaces acc,
          p.y = startHeight ∧ 0 ≤ p.x ∧ 0 ≤ p.z ∧
          p.actualHeight ≤ avail ∧
          p.x + p.actualLength ≤ cfg.length + ROUNDING_TOLERANCE ∧
          p.z + p.actualWidth ≤ cfg.width + ROUNDING_TOLERANCE := by
  intro entries
  induction entries with
  | nil =>
      intro w spaces acc _ hA hB _
      unfold mixedLayerGo
      refine ⟨List.pairwise_reverse.mpr (hA.imp fun h => separated_symm h), ?_⟩
      intro p hp
      exact hB p (List.mem_reverse.mp hp)
  | cons e es ih =>
      intro w spaces acc hhts hA hB hF
      unfold mixedLayerGo
      by_cases hwt : cfg.maxWeight < w + e.pkg.weight
      · rw [if_pos hwt]
        exact ih w spaces acc (fun e' he' => hhts e' (List.mem_cons_of_mem e he'))
          hA hB hF
      · rw [if_neg hwt]
        cases hfind : findBestPositionInLayer cfg st.placed e.rot startHeight spaces with
        | none =>
            dsimp only
            exact ih w spaces acc (fun e' he' => hhts e' (List.mem_cons_of_mem e he'))
              hA hB hF
        | some pos =>
            dsimp only
            obtain ⟨hy, hx0, hz0, hcl, hcp⟩ := findBestPositionInLayer_spec hfind
            obtain ⟨hbx, hbz, _, _⟩ := canPlaceAtPosition_spec hcp
            apply ih
            · exact fun e' he' => hhts e' (List.mem_cons_of_mem e he')
            · refine List.Pairwise.cons ?_ hA
              intro p hp
              have hcf := spaceConflict_false (hcl _ (hF p hp))
              dsimp only at hcf
              show sepGeom pos e.rot p
              unfold sepGeom
              have ht := tol_nonneg
              rcases hcf with hc | hc | hc | hc
              · exact Or.inl (by linarith)
              · exact Or.inr (Or.inl (by linarith))
              · exact Or.inr (Or.inr (Or.inr (Or.inr (Or.inl (by linarith)))))
              · exact Or.inr (Or.inr (Or.inr (Or.inr (Or.inr (by linarith)))))
            · intro p hp
              rcases List.mem_cons.mp hp with rfl | hp
              · exact ⟨hy, hx0, hz0, hhts e (List.mem_cons_self e es), hbx, hbz⟩
              · exact hB p hp
            · intro p hp
              rcases List.mem_cons.mp hp with rfl | hp
              · exact List.mem_append_right _ (List.mem_singleton.mpr rfl)
              · exact List.mem_append_left _ (hF p hp)

/-- The mixed layer satisfies the per-layer contract whenever the remaining
vertical span is non-negative. -/
theorem createMixedLayer_spec (cfg : PalletConfig) (st : BPState)
    (remaining : List (TKey × List Package)) (startHeight avail : ℚ)
    (h0 : 0 ≤ avail) :
    LayerOK cfg startHeight avail
      (createMixedLayer cfg st remaining startHeight avail) := by
  unfold createMixedLayer
  have hents : ∀ e ∈ stableSort
      (fun (a b : SuitEntry) => decide (b.priority < a.priority))
      (remaining.flatMap (fun kv =>
        kv.2.flatMap (fun pkg =>
          (generateRotations pkg).filterMap (fun rotation =>
            if rotation.height ≤ avail then
              some (⟨pkg, rotation, calculatePackagePriority pkg rotation⟩ : SuitEntry)
            else none)))), e.rot.height ≤ avail := by
    intro e he
    rw [mem_stableSort] at he
    simp only [List.mem_flatMap, List.mem_filterMap] at he
    obtain ⟨kv, _, p, _, rot, _, hif⟩ := he
    by_cases hc : rot.height ≤ avail
    · rw [if_pos hc] at hif
      cases hif
      exact hc
    · rw [if_neg hc] at hif
      cases hif
  obtain ⟨hpw, hpost⟩ := mixedLayerGo_spec cfg st startHeight avail _
    (getCurrentWeight st) [] [] hents List.Pairwise.nil (by intro p hp; cases hp)
    (by intro p hp; cases hp)
  refine ⟨hpw, (foldl_max_spec _ 0).1, foldl_max_le _ 0 avail h0
    (fun p hp => (hpost p hp).2.2.2.1), ?_⟩
  intro p hp
  obtain ⟨h1, h2, h3, _, h5, h6⟩ := hpost p hp
  have hmax := (foldl_max_spec (mixedLayerGo cfg st startHeight _
    (getCurrentWeight st) [] []) 0).2 p hp
  exact ⟨h1, h2, h3, by rw [h1]; linarith, h5, h6⟩

/-- Every candidate layer plan that `createOptimalLayer` can select, and
hence its selected plan, satisfies the per-layer contract. -/
theorem createOptimalLayer_spec (cfg : PalletConfig) (st : BPState)
    (remaining : List (TKey × List Package)) (startHeight : ℚ)
    (hp : ∀ kv ∈ remaining, ∀ p ∈ kv.2, posDims p)
    (h0 : 0 ≤ cfg.baseHeight + cfg.loadHeight - startHeight) :
    LayerOK cfg startHeight (cfg.baseHeight + cfg.loadHeight - startHeight)
      (createOptimalLayer cfg st remaining startHeight) := by
  unfold createOptimalLayer
  apply foldl_invariant
  · exact ⟨List.Pairwise.nil, le_refl 0, h0, by intro p hp'; cases hp'⟩
  · intro b' a ha hb'
    have hgood : LayerOK cfg startHeight
        (cfg.baseHeight + cfg.loadHeight - startHeight) a := by
      rcases List.mem_append.mp ha with ha | ha
      · -- uniform plan
        simp only [List.mem_flatMap] at ha
        obtain ⟨kv, hkv, ha⟩ := ha
        rcases hkv2 : kv.2 with _ | ⟨sample, rest⟩
        · rw [hkv2] at ha; cases ha
        · rw [hkv2] at ha
          simp only [List.mem_filterMap] at ha
          obtain ⟨rot, hrot, hif⟩ := ha
          have hsd : posDims sample := hp kv hkv sample (hkv2 ▸ List.mem_cons_self _ _)
          obtain ⟨hl, hw, hh⟩ := generateRotations_pos hsd hrot
          by_cases hcnd : cfg.baseHeight + cfg.loadHeight - startHeight < rot.height
          · rw [if_pos hcnd] at hif; cases hif
          · rw [if_neg hcnd] at hif
            by_cases hemp : (createUniformLayer cfg st (sample :: rest) rot
                startHeight).packages.isEmpty
            · rw [if_pos hemp] at hif; cases hif
            · rw [if_neg hemp] at hif
              cases hif
              obtain ⟨hpw, hpost⟩ := createUniformLayer_spec cfg st (sample :: rest)
                rot startHeight hl hw
              refine ⟨hpw, hh.le, not_lt.mp hcnd, ?_⟩
              intro p hpmem
              obtain ⟨h1, h2, h3, h4, h5, h6⟩ := hpost p hpmem
              have ht := tol_nonneg
              exact ⟨h1, h3, h4, by rw [h1, h2]; exact le_of_eq rfl,
                by linarith, by linarith⟩
      · -- mixed plan
        by_cases hemp : (createMixedLayer cfg st remaining startHeight
            (cfg.baseHeight + cfg.loadHeight - startHeight)).packages.isEmpty
        · rw [if_pos hemp] at ha; cases ha
        · rw [if_neg hemp] at ha
          rcases List.mem_singleton.mp ha with rfl
          exact createMixedLayer_spec cfg st remaining startHeight _ h0
    by_cases hcmp : b'.efficiency < a.efficiency
    · rw [if_pos hcmp]; exact hgood
    · rw [if_neg hcmp]; exact hb'

theorem removeUsedPackage_posDims {remaining : List (TKey × List Package)}
    {pl : PlacedPackage} (h : ∀ kv ∈ remaining, ∀ p ∈ kv.2, posDims p) :
    ∀ kv ∈ removeUsedPackage remaining pl, ∀ p ∈ kv.2, posDims p := by
  intro kv hkv p hp
  unfold removeUsedPackage at hkv
  obtain ⟨kv0, hkv0, heq⟩ := List.mem_map.mp hkv
  by_cases hk : kv0.1 = getPackageTypeKey pl
  · rw [if_pos hk] at heq
    subst heq
    exact h kv0 hkv0 p (mem_removeFirstById hp)
  · rw [if_neg hk] at heq
    subst heq
    exact h kv0 hkv0 p hp

theorem foldl_removeUsed_posDims (pls : List PlacedPackage) :
    ∀ (remaining : List (TKey × List Package)),
      (∀ kv ∈ remaining, ∀ p ∈ kv.2, posDims p) →
      ∀ kv ∈ pls.foldl removeUsedPackage remaining, ∀ p ∈ kv.2, posDims p := by
  induction pls with
  | nil => intro r h; exact h
  | cons pl pls ih =>
      intro r h
      exact ih _ (removeUsedPackage_posDims h)

/-- Invariant of the layer-stacking loop: all stacked layers are pairwise
separated and in bounds, with every box's top at or below the running height. -/
theorem layerGo_spec (cfg : PalletConfig) (st : BPState) :
    ∀ (fuel : ℕ) (currentHeight : ℚ) (remaining : List (TKey × List Package))
      (layers : List (List PlacedPackage)),
      cfg.baseHeight ≤ currentHeight →
      (∀ kv ∈ remaining, ∀ p ∈ kv.2, posDims p) →
      layers.flatten.Pairwise separated →
      (∀ p ∈ layers.flatten, inBounds cfg p ∧
        p.y + p.actualHeight ≤ currentHeight) →
      (layerGo cfg st fuel currentHeight remaining layers).flatten.Pairwise separated ∧
        ∀ p ∈ (layerGo cfg st fuel currentHeight remaining layers).flatten,
          inBounds cfg p := by
  intro fuel
  induction fuel with
  | zero =>
      intro currentHeight remaining layers _ _ hA hB
      exact ⟨hA, fun p hp' => (hB p hp').1⟩
  | succ fuel ih =>
      intro currentHeight remaining layers hbase hp hA hB
      unfold layerGo
      by_cases hcond : currentHeight < cfg.baseHeight + cfg.loadHeight
      · rw [if_pos hcond]
        have h0 : 0 ≤ cfg.baseHeight + cfg.loadHeight - currentHeight := by linarith
        have hLOK := createOptimalLayer_spec cfg st remaining currentHeight hp h0
        obtain ⟨hLpw, hLh0, hLha, hLpost⟩ := hLOK
        by_cases hemp : (createOptimalLayer cfg st remaining currentHeight).packages.isEmpty
        · rw [if_pos hemp]
          exact ⟨hA, fun p hp' => (hB p hp').1⟩
        · rw [if_neg hemp]
          apply ih
          · linarith
          · exact foldl_removeUsed_posDims _ _ hp
          · rw [List.flatten_append, List.flatten_cons, List.flatten_nil,
              List.append_nil]
            rw [List.pairwise_append]
            refine ⟨hA, hLpw, ?_⟩
            intro p hpmem q hqmem
            obtain ⟨hq1, _, _, _, _, _⟩ := hLpost q hqmem
            obtain ⟨_, hptop⟩ := hB p hpmem
            unfold separated
            refine Or.inr (Or.inr (Or.inl ?_))
            have := tol_nonneg
            rw [hq1]
            linarith
          · intro p hpmem
            rw [List.flatten_append, List.flatten_cons, List.flatten_nil,
              List.append_nil] at hpmem
            rcases List.mem_append.mp hpmem with hpmem | hpmem
            · obtain ⟨hin, htop⟩ := hB p hpmem
              exact ⟨hin, by linarith⟩
            · obtain ⟨h1, h2, h3, h4, h5, h6⟩ := hLpost p hpmem
              have ht := tol_nonneg
              refine ⟨⟨h2, h3, by rw [h1]; exact hbase, h5, h6, ?_⟩, h4⟩
              linarith
      · rw [if_neg hcond]
        exact ⟨hA, fun p hp' => (hB p hp').1⟩

/-- The layer-based strategy returns a pairwise-separated, in-bounds
placement when all input boxes have positive dimensions. -/
theorem layerBasedPacking_spec (cfg : PalletConfig) (types : List PackageType)
    (hp : ∀ t ∈ types, ∀ p ∈ t.packages, posDims p) :
    (layerBasedPacking cfg types).1.Pairwise separated ∧
      ∀ p ∈ (layerBasedPacking cfg types).1, inBounds cfg p := by
  unfold layerBasedPacking
  apply layerGo_spec
  · exact le_refl _
  · intro kv hkv p hpm
    obtain ⟨t, ht, heq⟩ := List.mem_map.mp hkv
    subst heq
    exact hp t ht p hpm
  · exact List.Pairwise.nil
  · intro p hp'; cases hp'

/-! ### Workspace lemmas for the greedy placer -/

theorem isValidPosition_lower {cfg : PalletConfig} {pos : Position}
    (h : isValidPosition cfg pos = true) :
    0 ≤ pos.x ∧ cfg.baseHeight ≤ pos.y ∧ 0 ≤ pos.z := by
  simp only [isValidPosition, Bool.and_eq_true, decide_eq_true_eq, ge_iff_le] at h
  tauto

theorem initPosition_ok (cfg : PalletConfig) : PosOK cfg [initPosition cfg] := by
  intro a ha
  rcases List.mem_singleton.mp ha with rfl
  exact ⟨le_refl 0, le_refl cfg.baseHeight, le_refl 0⟩

/-- `updateAvailablePositions` keeps the placed list and the anchor
invariant. -/
theorem updateAvailablePositions_spec (cfg : PalletConfig) (st : BPState)
    (pp : PlacedPackage) (h : PosOK cfg st.positions) :
    (updateAvailablePositions cfg st pp).placed = st.placed ∧
      PosOK cfg (updateAvailablePositions cfg st pp).positions := by
  refine ⟨rfl, ?_⟩
  intro a ha
  rw [updateAvailablePositions] at ha
  simp only [mem_stableSort] at ha
  rcases List.mem_append.mp ha with ha | ha
  · exact h a ha
  · have hf := (List.mem_filter.mp ha).2
    simp only [Bool.and_eq_true] at hf
    exact isValidPosition_lower hf.1

theorem removeUsedPosition_subset {positions : List Position} {pos a : Position}
    (h : a ∈ removeUsedPosition positions pos) : a ∈ positions :=
  (List.mem_filter.mp h).1

/-- The candidate-considering fold only ever selects in-list feasible
anchors. -/
theorem considerPlacement_foldl_spec (cfg : PalletConfig) (st : BPState)
    (rotation : Rotation) :
    ∀ (ps : List Position) (acc : Option (ℚ × Position × Rotation)),
      (∀ q ∈ ps, q ∈ st.positions) →
      (∀ sc pos rot, acc = some (sc, pos, rot) →
        pos ∈ st.positions ∧ canPlaceAtPosition cfg st.placed rot pos = true) →
      ∀ sc pos rot,
        ps.foldl (considerPlacement cfg st.placed rotation) acc = some (sc, pos, rot) →
        pos ∈ st.positions ∧ canPlaceAtPosition cfg st.placed rot pos = true := by
  intro ps
  induction ps with
  | nil => intro acc _ hacc sc pos rot h; exact hacc sc pos rot h
  | cons q qs ih =>
      intro acc hps hacc sc pos rot h
      refine ih _ (fun q' hq' => hps q' (List.mem_cons_of_mem q hq')) ?_ sc pos rot h
      intro sc' pos' rot' hacc'
      unfold considerPlacement at hacc'
      by_cases hcp : canPlaceAtPosition cfg st.placed rotation q = true
      · rw [if_pos hcp] at hacc'
        dsimp only at hacc'
        cases acc with
        | none =>
            cases hacc'
            exact ⟨hps q (List.mem_cons_self q qs), hcp⟩
        | some best =>
            obtain ⟨bs, bp, br⟩ := best
            dsimp only at hacc'
            by_cases hsc : evaluatePositionScore cfg q rotation < bs
            · rw [if_pos hsc] at hacc'
              cases hacc'
              exact ⟨hps q (List.mem_cons_self q qs), hcp⟩
            · rw [if_neg hsc] at hacc'
              exact hacc sc' pos' rot' hacc'
      · rw [if_neg hcp] at hacc'
        exact hacc sc' pos' rot' hacc'

/-- A successful selection picks an anchor from the current set that passes
the feasibility check. -/
theorem bestPlacement_spec {cfg : PalletConfig} {st : BPState} {pkg : Package}
    {sc : ℚ} {pos : Position} {rot : Rotation}
    (h : bestPlacement cfg st pkg = some (sc, pos, rot)) :
    pos ∈ st.positions ∧ canPlaceAtPosition cfg st.placed rot pos = true := by
  unfold bestPlacement at h
  have main : ∀ (rots : List Rotation) (acc : Option (ℚ × Position × Rotation)),
      (∀ sc' pos' rot', acc = some (sc', pos', rot') →
        pos' ∈ st.positions ∧ canPlaceAtPosition cfg st.placed rot' pos' = true) →
      ∀ sc' pos' rot',
        rots.foldl (fun acc rotation =>
          st.positions.foldl (considerPlacement cfg st.placed rotation) acc) acc =
          some (sc', pos', rot') →
        pos' ∈ st.positions ∧ canPlaceAtPosition cfg st.placed rot' pos' = true := by
    intro rots
    induction rots with
    | nil => intro acc hacc sc' pos' rot' h'; exact hacc sc' pos' rot' h'
    | cons r rs ih =>
        intro acc hacc sc' pos' rot' h'
        refine ih _ ?_ sc' pos' rot' h'
        intro sc'' pos'' rot'' hacc''
        exact considerPlacement_foldl_spec cfg st r st.positions acc
          (fun q hq => hq) hacc sc'' pos'' rot'' hacc''
  exact main (generateRotations pkg) none (by intro sc' pos' rot' h'; cases h') sc pos rot h

/-- The single-box greedy placer preserves workspace well-formedness. -/
theorem placePackageOptimized_WS (cfg : PalletConfig) (st : BPState)
    (pkg : Package) (h : WS cfg st) :
    WS cfg (placePackageOptimized cfg st pkg).1 := by
  obtain ⟨hpw, hin, hpos⟩ := h
  unfold placePackageOptimized
  cases hb : bestPlacement cfg st pkg with
  | none => exact ⟨hpw, hin, hpos⟩
  | some v =>
      obtain ⟨sc, pos, rot⟩ := v
      obtain ⟨hmem, hcp⟩ := bestPlacement_spec hb
      obtain ⟨hbx, hbz, hby, hsep⟩ := canPlaceAtPosition_spec hcp
      obtain ⟨hax, hay, haz⟩ := hpos pos hmem
      dsimp only
      set pp := createPlacedPackage pkg pos rot with hpp
      have hplaced : (st.placed ++ [pp]).Pairwise separated := by
        rw [List.pairwise_append]
        refine ⟨hpw, List.pairwise_singleton _ _, ?_⟩
        intro a ha b hbmem
        rcases List.mem_singleton.mp hbmem with rfl
        exact separated_symm (hsep a ha)
      have hinb : ∀ p ∈ st.placed ++ [pp], inBounds cfg p := by
        intro p hpm
        rcases List.mem_append.mp hpm with hpm | hpm
        · exact hin p hpm
        · rcases List.mem_singleton.mp hpm with rfl
          exact ⟨hax, haz, hay, hbx, hbz, hby⟩
      have hupd := updateAvailablePositions_spec cfg
        { st with placed := st.placed ++ [pp] } pp (by exact hpos)
      refine ⟨?_, ?_, ?_⟩
      · rw [hupd.1]; exact hplaced
      · rw [hupd.1]; exact hinb
      · intro a ha
        exact hupd.2 a (removeUsedPosition_subset ha)

/-- The guarded greedy fill preserves workspace well-formedness. -/
theorem greedyFill_WS (cfg : PalletConfig) (st : BPState)
    (packages : List Package) (h : WS cfg st) :
    WS cfg (greedyFill cfg st packages) := by
  unfold greedyFill
  induction packages generalizing st with
  | nil => exact h
  | cons pkg pkgs ih =>
      simp only [List.foldl_cons]
      by_cases hg : canAddPackageWeight cfg st pkg.weight = true
      · rw [if_pos hg]
        exact ih _ (placePackageOptimized_WS cfg st pkg h)
      · rw [if_neg hg]
        exact ih _ h

theorem freshState_WS (cfg : PalletConfig) : WS cfg (freshState cfg) := by
  refine ⟨List.Pairwise.nil, ?_, ?_⟩
  · intro p hp; cases hp
  · exact initPosition_ok cfg

/-! ### Strategy-level invariants and the packPackages theorems -/

/-- Best-by-count chooser preserves any property of the candidates. -/
theorem foldl_best_count_spec {α : Type} (P : List PlacedPackage → Prop)
    (f : α → List PlacedPackage) :
    ∀ (l : List α), (∀ a ∈ l, P (f a)) →
    ∀ (init : List PlacedPackage), P init →
    P (l.foldl (fun best a => if best.length < (f a).length then f a else best) init) := by
  intro l
  induction l with
  | nil => intro _ init hinit; exact hinit
  | cons a l ih =>
      intro h init hinit
      simp only [List.foldl_cons]
      by_cases hc : init.length < (f a).length
      · rw [if_pos hc]
        exact ih (fun x hx => h x (List.mem_cons_of_mem a hx)) _
          (h a (List.mem_cons_self a l))
      · rw [if_neg hc]
        exact ih (fun x hx => h x (List.mem_cons_of_mem a hx)) _ hinit

theorem optimizeForSingleType_spec (cfg : PalletConfig) (t : PackageType)
    (hp : ∀ p ∈ t.packages, posDims p) :
    (optimizeForSingleType cfg t).1.Pairwise separated ∧
      (∀ p ∈ (optimizeForSingleType cfg t).1, inBounds cfg p) ∧
      (optimizeForSingleType cfg t).2 = freshState cfg := by
  unfold optimizeForSingleType
  cases hpk : t.packages with
  | nil =>
      refine ⟨List.Pairwise.nil, ?_, rfl⟩
      intro p hp'
      cases hp'
  | cons sample rest =>
      have hsd : posDims sample := hp sample (hpk ▸ List.mem_cons_self _ _)
      have key := foldl_best_count_spec
        (fun l => l.Pairwise separated ∧ ∀ p ∈ l, inBounds cfg p)
        (fun rotation => packUniformBoxes cfg (sample :: rest) rotation)
        (generateRotations sample)
        (fun rot hrot => by
          obtain ⟨hl, hw, hh⟩ := generateRotations_pos hsd hrot
          exact packUniformBoxes_spec cfg (sample :: rest) rot hl hw hh)
        [] ⟨List.Pairwise.nil, by intro p hp'; cases hp'⟩
      exact ⟨key.1, key.2, rfl⟩

theorem uniformPackingOptimization_spec (cfg : PalletConfig)
    (types : List PackageType) (st : BPState)
    (hp : ∀ t ∈ types, ∀ p ∈ t.packages, posDims p) :
    (uniformPackingOptimization cfg types st).1.Pairwise separated ∧
      ∀ p ∈ (uniformPackingOptimization cfg types st).1, inBounds cfg p := by
  unfold uniformPackingOptimization
  have hp3 : ∀ t ∈ types.take 3, ∀ p ∈ t.packages, posDims p :=
    fun t ht => hp t (List.mem_of_mem_take ht)
  have main : ∀ (ts : List PackageType),
      (∀ t ∈ ts, ∀ p ∈ t.packages, posDims p) →
      ∀ (acc : List PlacedPackage × BPState),
        acc.1.Pairwise separated → (∀ p ∈ acc.1, inBounds cfg p) →
        ((ts.foldl (fun acc t =>
            let r := optimizeForSingleType cfg t
            ((if acc.1.length < r.1.length then r.1 else acc.1), r.2)) acc).1.Pairwise
            separated ∧
          ∀ p ∈ (ts.foldl (fun acc t =>
            let r := optimizeForSingleType cfg t
            ((if acc.1.length < r.1.length then r.1 else acc.1), r.2)) acc).1,
            inBounds cfg p) := by
    intro ts
    induction ts with
    | nil => intro _ acc h1 h2; exact ⟨h1, h2⟩
    | cons t ts ih =>
        intro hts acc h1 h2
        simp only [List.foldl_cons]
        obtain ⟨g1, g2, _⟩ := optimizeForSingleType_spec cfg t
          (hts t (List.mem_cons_self t ts))
        by_cases hc : acc.1.length < (optimizeForSingleType cfg t).1.length
        · rw [if_pos hc]
          exact ih (fun x hx => hts x (List.mem_cons_of_mem t hx)) _ g1 g2
        · rw [if_neg hc]
          exact ih (fun x hx => hts x (List.mem_cons_of_mem t hx)) _ h1 h2
  exact main (types.take 3) hp3 ([], st) List.Pairwise.nil (by intro p hp'; cases hp')

theorem updateAvailablePositionsFromPlaced_spec (cfg : PalletConfig) (st : BPState) :
    (updateAvailablePositionsFromPlaced cfg st).placed = st.placed ∧
      PosOK cfg (updateAvailablePositionsFromPlaced cfg st).positions := by
  unfold updateAvailablePositionsFromPlaced
  have main : ∀ (pls : List PlacedPackage) (s : BPState), PosOK cfg s.positions →
      (pls.foldl (fun s p => updateAvailablePositions cfg s p) s).placed = s.placed ∧
        PosOK cfg (pls.foldl (fun s p => updateAvailablePositions cfg s p) s).positions := by
    intro pls
    induction pls with
    | nil => intro s h; exact ⟨rfl, h⟩
    | cons p pls ih =>
        intro s h
        simp only [List.foldl_cons]
        obtain ⟨e1, e2⟩ := updateAvailablePositions_spec cfg s p h
        obtain ⟨f1, f2⟩ := ih _ e2
        exact ⟨by rw [f1, e1], f2⟩
  exact main st.placed { st with positions := [initPosition cfg] }
    (by exact initPosition_ok cfg)

theorem hybridPacking_spec (cfg : PalletConfig) (types : List PackageType)
    (hp : ∀ t ∈ types, ∀ p ∈ t.packages, posDims p) :
    (hybridPacking cfg types).1.Pairwise separated ∧
      ∀ p ∈ (hybridPacking cfg types).1, inBounds cfg p := by
  unfold hybridPacking
  have hseed : ∀ (seeded : BPState),
      seeded.placed.Pairwise separated → (∀ p ∈ seeded.placed, inBounds cfg p) →
      ∀ (remainingPackages : List Package),
      ((greedyFill cfg (updateAvailablePositionsFromPlaced cfg seeded)
          remainingPackages).placed.Pairwise separated ∧
        ∀ p ∈ (greedyFill cfg (updateAvailablePositionsFromPlaced cfg seeded)
          remainingPackages).placed, inBounds cfg p) := by
    intro seeded hs1 hs2 remainingPackages
    obtain ⟨u1, u2⟩ := updateAvailablePositionsFromPlaced_spec cfg seeded
    have hws : WS cfg (updateAvailablePositionsFromPlaced cfg seeded) := by
      refine ⟨?_, ?_, u2⟩
      · rw [u1]; exact hs1
      · rw [u1]; exact hs2
    obtain ⟨w1, w2, _⟩ := greedyFill_WS cfg _ remainingPackages hws
    exact ⟨w1, w2⟩
  cases types with
  | nil =>
      exact hseed (freshState cfg) List.Pairwise.nil (by intro p hp'; cases hp') _
  | cons t ts =>
      obtain ⟨g1, g2, _⟩ := optimizeForSingleType_spec cfg t
        (hp t (List.mem_cons_self t ts))
      exact hseed _ g1 g2 _

theorem greedyPacking_spec (cfg : PalletConfig) (packages : List Package) :
    (greedyPacking cfg packages).1.Pairwise separated ∧
      ∀ p ∈ (greedyPacking cfg packages).1, inBounds cfg p := by
  unfold greedyPacking
  have main : ∀ (vs : List (List Package)) (acc : List PlacedPackage × ℚ × BPState),
      acc.1.Pairwise separated → (∀ p ∈ acc.1, inBounds cfg p) →
      ((vs.foldl (fun acc sorted =>
          let sEnd := greedyFill cfg (freshState cfg) sorted
          let score := evaluatePackingQuality cfg sEnd sEnd.placed
          ((if acc.2.1 < score then sEnd.placed else acc.1),
           (if acc.2.1 < score then score else acc.2.1), sEnd)) acc).1.Pairwise
          separated ∧
        ∀ p ∈ (vs.foldl (fun acc sorted =>
          let sEnd := greedyFill cfg (freshState cfg) sorted
          let score := evaluatePackingQuality cfg sEnd sEnd.placed
          ((if acc.2.1 < score then sEnd.placed else acc.1),
           (if acc.2.1 < score then score else acc.2.1), sEnd)) acc).1,
          inBounds cfg p) := by
    intro vs
    induction vs with
    | nil => intro acc h1 h2; exact ⟨h1, h2⟩
    | cons v vs ih =>
        intro acc h1 h2
        simp only [List.foldl_cons]
        obtain ⟨w1, w2, _⟩ := greedyFill_WS cfg (freshState cfg) v (freshState_WS cfg)
        by_cases hc : acc.2.1 < evaluatePackingQuality cfg
            (greedyFill cfg (freshState cfg) v)
            (greedyFill cfg (freshState cfg) v).placed
        · rw [if_pos hc]
          exact ih _ w1 w2
        · rw [if_neg hc]
          exact ih _ h1 h2
  exact main (greedySortVariants packages) ([], 0, freshState cfg)
    List.Pairwise.nil (by intro p hp'; cases hp')

/-- The best-scoring selection loop of `packPackages` preserves any property
shared by the empty initial result and all four strategy results. -/
theorem pick_foldl_spec (P : List PlacedPackage → Prop) :
    ∀ (cands : List (List PlacedPackage × ℚ)) (init : List PlacedPackage × ℚ),
      P init.1 → (∀ c ∈ cands, P c.1) →
      P ((cands.foldl (fun best cand => if best.2 < cand.2 then cand else best)
          init).1) := by
  intro cands
  induction cands with
  | nil => intro init h _; exact h
  | cons c cs ih =>
      intro init h hc
      simp only [List.foldl_cons]
      by_cases hlt : init.2 < c.2
      · rw [if_pos hlt]
        exact ih c (hc c (List.mem_cons_self c cs))
          (fun d hd => hc d (List.mem_cons_of_mem c hd))
      · rw [if_neg hlt]
        exact ih init h (fun d hd => hc d (List.mem_cons_of_mem c hd))

/-- Every placement list `packPackages` can return is pairwise separated and
in bounds, provided all input boxes have positive dimensions. -/
theorem packPackages_invariants (cfg : PalletConfig) (packages : List Package)
    (hpos : ∀ p ∈ packages, posDims p) :
    (packPackages cfg packages).Pairwise separated ∧
      ∀ p ∈ packPackages cfg packages, inBounds cfg p := by
  have htypes : ∀ t ∈ groupPackagesByType (expandPackages packages),
      ∀ p ∈ t.packages, posDims p :=
    fun t ht p hp => posDims_expand hpos p (mem_groupPackagesByType ht p hp)
  unfold packPackages packPackagesFull
  dsimp only
  apply pick_foldl_spec
    (fun l => l.Pairwise separated ∧ ∀ p ∈ l, inBounds cfg p)
  · exact ⟨List.Pairwise.nil, by intro p hp'; cases hp'⟩
  · intro c hcm
    simp only [List.mem_cons, List.mem_singleton, List.not_mem_nil, or_false] at hcm
    rcases hcm with rfl | rfl | rfl | rfl
    · exact layerBasedPacking_spec cfg _ htypes
    · exact hybridPacking_spec cfg _ htypes
    · exact uniformPackingOptimization_spec cfg _ _ htypes
    · exact greedyPacking_spec cfg _

/-- Claim C3: any two placed packages in a `packPackages` result are
separated on at least one axis within the tolerance ε (exact face contact
allowed), for every input whose boxes have positive dimensions. -/
theorem C3_no_overlap (cfg : PalletConfig) (packages : List Package)
    (hpos : ∀ p ∈ packages, posDims p) :
    (packPackages cfg packages).Pairwise separated :=
  (packPackages_invariants cfg packages hpos).1

/-- Witness for C3 at the concrete input of claim C1: the hypotheses hold
and the returned (two-element) placement is pairwise separated. -/
theorem C3_no_overlap_witness :
    (∀ p ∈ [pkgA], posDims p) ∧
      (packPackages cfg1 [pkgA]).Pairwise separated := by
  have h : ∀ p ∈ [pkgA], posDims p := by decide
  exact ⟨h, C3_no_overlap cfg1 [pkgA] h⟩

/-- Claim C4: every placed package in a `packPackages` result lies within
the pallet bounds — near faces exactly (`0 ≤ x`, `0 ≤ z`,
`baseHeight ≤ y`), far faces within the tolerance ε — for every input whose
boxes have positive dimensions. -/
theorem C4_containment (cfg : PalletConfig) (packages : List Package)
    (hpos : ∀ p ∈ packages, posDims p) :
    ∀ p ∈ packPackages cfg packages, inBounds cfg p :=
  (packPackages_invariants cfg packages hpos).2

/-- Witness for C4 at the concrete input of claim C2: the hypotheses hold
and both returned placements are in bounds. -/
theorem C4_containment_witness :
    (∀ p ∈ [pkgB], posDims p) ∧
      ∀ p ∈ packPackages cfg2 [pkgB], inBounds cfg2 p := by
  have h : ∀ p ∈ [pkgB], posDims p := by decide
  exact ⟨h, C4_containment cfg2 [pkgB] h⟩

end BinPacking
